import Mathlib

/-!
Verification development for the tbot_v2 consensus analytics pipeline.

The definitions below are a shallow embedding of the Python sources under
`tbot/analysis/` (consensus_detector.py, consensus_backtester.py,
message_parser.py, technical_indicators.py).  Database tables are embedded
as lists of records, timestamps as `Int` seconds, prices and percentages as
exact rationals, and SQLAlchemy queries as list filters.  Regular-expression
probes and the pandas indicator mathematics are external engines from the
point of view of the translated control flow; their outcomes enter the
embedding as explicit oracle parameters, while every branch decision taken
on those outcomes is translated literally from the source.
-/

namespace Tbot

/-- Row of the parsed_signals table, as used by the detector and backtester.
Timestamps are UTC seconds; prices are rationals; optional text columns are
`Option String` (Python truthiness treats both `None` and the empty string
as absent, which the embedding reproduces where the source relies on it). -/
structure ParsedSignal where
  id : Nat
  ticker : String
  direction : Option String
  signal_type : String
  author : Option String
  timestamp : Int
  target_price : Option ℚ
deriving Repr, DecidableEq

/-- Row of the candles table.  The source column `open` is renamed
`open_price` because `open` is a Lean keyword; it is never read by the
translated code paths. -/
structure Candle where
  instrument_id : String
  interval : String
  time : Int
  open_price : ℚ
  high : ℚ
  low : ℚ
  close : ℚ
  volume : Int
deriving Repr, DecidableEq

/-- One entry of a rule's `indicator_conditions` JSON dict:
`{enabled, min, max, signal}` with absent keys as `none`. -/
structure IndCond where
  enabled : Bool
  min : Option ℚ
  max : Option ℚ
  signal : Option String
deriving Repr, DecidableEq

/-- Row of the consensus_rules table (fields the detector and backtester
read; the model class itself lives outside the analysis sources, its
attributes follow the data-model section of the specification).
`indicator_conditions` is the JSON dict embedded as an association list. -/
structure ConsensusRule where
  id : Nat
  window_minutes : Int
  min_traders : Int
  strict_consensus : Bool
  ticker_filter : Option String
  direction_filter : Option String
  indicator_conditions : List (String × IndCond)
deriving Repr, DecidableEq

/-- Environment for `_check_indicator_conditions`: the candles table, the
ticker-to-FIGI resolution performed by its subquery, and the pandas
indicator mathematics (`calculate_all_indicators` / `get_indicator_signals`)
as opaque valuation functions of the fetched candle history.  `rsi_last`
returns the final RSI value (`none` models NaN) and `sig_of` the derived
categorical signal per indicator name. -/
structure IndicatorEnv where
  candles : List Candle
  figi_of : String → Option String
  rsi_last : List Candle → Option ℚ
  sig_of : List Candle → String → Option String

/-- Python truthiness of an optional string. -/
def truthy_str : Option String → Bool
  | some s => s ≠ ""
  | none => false

/-- Insertion into a sorted list, placing the new element after existing
elements it does not strictly precede (the stable placement). -/
def insert_sorted {α : Type} (le : α → α → Bool) (x : α) : List α → List α
  | [] => [x]
  | y :: ys => if le y x then y :: insert_sorted le x ys else x :: y :: ys

/-- Stable insertion sort, standing for the `ORDER BY` of the embedded
queries and the Python `sorted`. -/
def sort_by {α : Type} (le : α → α → Bool) (l : List α) : List α :=
  l.foldl (fun acc x => insert_sorted le x acc) []

/-- The window query of `_find_consensus_window`: entry signals on the same
ticker with non-null direction whose timestamp lies in the symmetric window
of `window_minutes` around the trigger.  `window_minutes / 2` minutes is
exactly `30 * window_minutes` seconds. -/
def window_signals (db : List ParsedSignal) (signal : ParsedSignal)
    (window_minutes : Int) : List ParsedSignal :=
  db.filter (fun x =>
    x.ticker == signal.ticker && x.signal_type == "entry" &&
    decide (signal.timestamp - 30 * window_minutes ≤ x.timestamp) &&
    decide (x.timestamp ≤ signal.timestamp + 30 * window_minutes) &&
    x.direction.isSome)

/-- Keys of `_group_by_direction`, in first-encounter order (Python dict
insertion order). -/
def direction_keys (signals : List ParsedSignal) : List (Option String) :=
  signals.foldl (fun acc s => if acc.contains s.direction then acc else acc ++ [s.direction]) []

/-- One group of `_group_by_direction` (filter preserves the per-group
insertion order of the source dict). -/
def direction_group (signals : List ParsedSignal) (d : Option String) : List ParsedSignal :=
  signals.filter (fun s => s.direction == d)

/-- `max(direction_groups, key=len)` over keys in insertion order: Python
`max` keeps the first key attaining the maximal group size. -/
def dominant_direction (signals : List ParsedSignal) : Option (Option String) :=
  (direction_keys signals).foldl
    (fun best d =>
      match best with
      | none => some d
      | some b =>
          if (direction_group signals d).length > (direction_group signals b).length
          then some d else best)
    none

/-- `set(s.author for s in consensus_signals if s.author)`: distinct truthy
authors, kept in first-occurrence order (only cardinality and membership of
the set are consumed downstream). -/
def unique_authors (signals : List ParsedSignal) : List String :=
  signals.foldl
    (fun acc s =>
      match s.author with
      | some a => if a ≠ "" && !acc.contains a then acc ++ [a] else acc
      | none => acc)
    []

/-- `[s.target_price for s in signals if s.target_price]`: truthiness drops
both null and zero prices. -/
def target_prices (signals : List ParsedSignal) : List ℚ :=
  signals.filterMap (fun s =>
    match s.target_price with
    | some p => if p = 0 then none else some p
    | none => none)

/-- Python `min` over a nonempty list of rationals. -/
def list_min : List ℚ → Option ℚ
  | [] => none
  | x :: xs => some (xs.foldl min x)

/-- Python `max` over a nonempty list of rationals. -/
def list_max : List ℚ → Option ℚ
  | [] => none
  | x :: xs => some (xs.foldl max x)

/-- The candle query of `_check_indicator_conditions` before its
`limit(100)`: hourly candles of the resolved instrument at or before the
signal timestamp.  An unresolved ticker gives the empty set (the SQL
`IN` over an empty subquery). -/
def candidate_candles (ind : IndicatorEnv) (ticker : String) (ts : Int) : List Candle :=
  match ind.figi_of ticker with
  | none => []
  | some figi =>
      ind.candles.filter (fun c =>
        c.instrument_id == figi && decide (c.time ≤ ts) && c.interval == "hour")

/-- The fetched history: `order_by(time.desc()).limit(100)`. -/
def fetch_candles (ind : IndicatorEnv) (ticker : String) (ts : Int) : List Candle :=
  (sort_by (fun a b : Candle => decide (b.time ≤ a.time)) (candidate_candles ind ticker ts)).take 100

/-- The guard `if expected_signal and signals.get(name) != expected_signal:
return False` shared by the macd / bollinger / obv branches. -/
def sig_cond_ok (sigs : String → Option String) (nm : String) (expected : Option String) : Bool :=
  match expected with
  | none => true
  | some e => if e == "" then true else sigs nm == some e

/-- One iteration of the condition loop of `_check_indicator_conditions`.
Disabled conditions and unknown indicator names pass; an RSI of NaN passes
(`pd.isna` continue). -/
def check_one_condition (rsi_val : Option ℚ) (sigs : String → Option String)
    (nm : String) (cond : IndCond) : Bool :=
  if !cond.enabled then true
  else if nm == "rsi" then
    match rsi_val with
    | none => true
    | some v =>
        (match cond.min with | none => true | some m => decide (m ≤ v)) &&
        (match cond.max with | none => true | some m => decide (v ≤ m))
  else if nm == "macd" then sig_cond_ok sigs nm cond.signal
  else if nm == "bollinger" then sig_cond_ok sigs nm cond.signal
  else if nm == "obv" then sig_cond_ok sigs nm cond.signal
  else true

/-- `_check_indicator_conditions`: empty condition dict passes; fewer than
30 fetched candles passes (the documented insufficient-data policy);
otherwise every condition must hold on the indicator values computed over
the chronologically ordered history (`reversed(candles)`). -/
def check_indicator_conditions (ind : IndicatorEnv) (ticker : String) (ts : Int)
    (conditions : List (String × IndCond)) : Bool :=
  if conditions.isEmpty then true
  else
    let cs := fetch_candles ind ticker ts
    if cs.length < 30 then true
    else
      let cs_asc := cs.reverse
      conditions.all (fun nc => check_one_condition (ind.rsi_last cs_asc) (ind.sig_of cs_asc) nc.1 nc.2)

/-- Result dict of `_find_consensus_window`. -/
structure ConsensusData where
  signals : List ParsedSignal
  direction : Option String
  unique_authors : List String
  window_start : Int
  window_end : Int
  window_minutes : Int
deriving Repr, DecidableEq

/-- `_find_consensus_window`.  In the strict branch the source indexes
`list(direction_groups.keys())[0]`, which presupposes a nonempty window;
that point is reachable only for `min_traders ≤ 0` and is embedded as a
rejection (`head?` on the empty key list). -/
def find_consensus_window (db : List ParsedSignal) (ind : IndicatorEnv)
    (signal : ParsedSignal) (window_minutes min_traders : Int)
    (strict_consensus : Bool) (rule : Option ConsensusRule) : Option ConsensusData :=
  let ws := window_signals db signal window_minutes
  if decide ((ws.length : Int) < min_traders) then none
  else
    let chosen : Option (Option String) :=
      if strict_consensus then
        if (direction_keys ws).length > 1 then none
        else (direction_keys ws).head?
      else dominant_direction ws
    match chosen with
    | none => none
    | some d =>
        let cs := direction_group ws d
        let ua := unique_authors cs
        if decide ((ua.length : Int) < min_traders) then none
        else
          let gate_ok :=
            match rule with
            | some r =>
                if r.indicator_conditions.isEmpty then true
                else check_indicator_conditions ind signal.ticker signal.timestamp r.indicator_conditions
            | none => true
          if gate_ok then
            some { signals := cs, direction := d, unique_authors := ua,
                   window_start := signal.timestamp - 30 * window_minutes,
                   window_end := signal.timestamp + 30 * window_minutes,
                   window_minutes := window_minutes }
          else none

/-- Timestamp maximum over a signal list (Python `max` generator; the
default for the unreachable empty case is 0). -/
def max_timestamp : List ParsedSignal → Int
  | [] => 0
  | s :: rest => rest.foldl (fun m x => max m x.timestamp) s.timestamp

/-- Timestamp minimum over a signal list. -/
def min_timestamp : List ParsedSignal → Int
  | [] => 0
  | s :: rest => rest.foldl (fun m x => min m x.timestamp) s.timestamp

/-- `_calculate_strength`: 50, adjusted for author count, price spread and
temporal compactness, clamped to [0, 100].  The time-span bonus is only
computed for more than one member signal, exactly as in the source. -/
def calculate_strength (data : ConsensusData) (price_spread : Option ℚ) : Int :=
  let s1 : Int := 50
  let s2 : Int :=
    if data.unique_authors.length ≥ 5 then s1 + 20
    else if data.unique_authors.length ≥ 4 then s1 + 10
    else s1
  let s3 : Int :=
    match price_spread with
    | none => s2
    | some ps =>
        if ps < 1 then s2 + 15
        else if ps < 2 then s2 + 5
        else if ps > 5 then s2 - 10
        else s2
  let s4 : Int :=
    if data.signals.length > 1 then
      let span : ℚ := ((max_timestamp data.signals - min_timestamp data.signals : Int) : ℚ) / 60
      if span < 10 then s3 + 15
      else if span < 20 then s3 + 5
      else s3
    else s3
  max 0 (min 100 s4)

/-- Row of the consensus_events table together with the flattened
`consensus_metadata` payload. -/
structure ConsensusEvent where
  id : Nat
  ticker : String
  direction : Option String
  traders_count : Nat
  window_minutes : Int
  rule_id : Option Nat
  first_signal_at : Int
  last_signal_at : Int
  avg_entry_price : Option ℚ
  min_entry_price : Option ℚ
  max_entry_price : Option ℚ
  price_spread_pct : Option ℚ
  consensus_strength : Int
  status : String
  meta_authors : List String
  meta_trigger_signal_id : Nat
  meta_total_signals : Nat
deriving Repr, DecidableEq

/-- Row of the consensus_signals junction table. -/
structure ConsensusSignalRow where
  consensus_id : Nat
  signal_id : Nat
  is_initiator : Bool
deriving Repr, DecidableEq

/-- Database state seen by the detector: the signals table, the active
rules in `priority DESC` order, and the tables it writes.  `next_event_id`
models primary-key generation. -/
structure DetectorState where
  signals_db : List ParsedSignal
  rules : List ConsensusRule
  events : List ConsensusEvent
  memberships : List ConsensusSignalRow
  next_event_id : Nat
deriving Repr, DecidableEq

/-- The price aggregation of `_create_consensus_event`: average of the
truthy target prices, or `none` when there are none. -/
def avg_price_of (prices : List ℚ) : Option ℚ :=
  if prices.isEmpty then none else some (prices.sum / (prices.length : ℚ))

/-- The spread computation of `_create_consensus_event`: guarded by the
truthiness chain `avg and min and max and avg > 0`. -/
def price_spread_of (avg mn mx : Option ℚ) : Option ℚ :=
  match avg, mn, mx with
  | some a, some mn', some mx' =>
      if a ≠ 0 ∧ mn' ≠ 0 ∧ mx' ≠ 0 ∧ a > 0 then some ((mx' - mn') / a * 100) else none
  | _, _, _ => none

/-- The membership row `_create_consensus_event` writes for one member
signal: `is_initiator` holds exactly for the trigger signal id. -/
def mk_membership (eid : Nat) (trigger_id : Nat) (s : ParsedSignal) : ConsensusSignalRow :=
  { consensus_id := eid, signal_id := s.id, is_initiator := s.id == trigger_id }

/-- `_create_consensus_event`: builds the event row, appends it and one
membership row per member signal (the trigger marked `is_initiator`), and
returns the event with the updated state.  The `headD` / `getLastD`
defaults stand for the source indexing `signals_sorted[0]` / `[-1]`, which
presupposes a nonempty member list. -/
def create_consensus_event (st : DetectorState) (trigger : ParsedSignal)
    (data : ConsensusData) (rule_id : Option Nat) : ConsensusEvent × DetectorState :=
  let signals_sorted := sort_by (fun a b : ParsedSignal => decide (a.timestamp ≤ b.timestamp)) data.signals
  let first_signal := signals_sorted.headD trigger
  let last_signal := signals_sorted.getLastD trigger
  let prices := target_prices data.signals
  let avg_price := avg_price_of prices
  let min_price := list_min prices
  let max_price := list_max prices
  let price_spread := price_spread_of avg_price min_price max_price
  let strength := calculate_strength data price_spread
  let ev : ConsensusEvent :=
    { id := st.next_event_id
      ticker := trigger.ticker
      direction := data.direction
      traders_count := data.unique_authors.length
      window_minutes := data.window_minutes
      rule_id := rule_id
      first_signal_at := first_signal.timestamp
      last_signal_at := last_signal.timestamp
      avg_entry_price := avg_price
      min_entry_price := min_price
      max_entry_price := max_price
      price_spread_pct := price_spread
      consensus_strength := strength
      status := "active"
      meta_authors := data.unique_authors
      meta_trigger_signal_id := trigger.id
      meta_total_signals := data.signals.length }
  let rows := data.signals.map (mk_membership ev.id trigger.id)
  (ev, { st with
          events := st.events ++ [ev]
          memberships := st.memberships ++ rows
          next_event_id := st.next_event_id + 1 })

/-- Ticker filter of the rule loop: CSV split, strip, uppercase, then
membership of the uppercased signal ticker. -/
def ticker_filter_excludes (r : ConsensusRule) (signal : ParsedSignal) : Bool :=
  match r.ticker_filter with
  | none => false
  | some f =>
      if f == "" then false
      else !((f.splitOn ",").map (fun t => t.trim.toUpper)).contains signal.ticker.toUpper

/-- Direction filter of the rule loop. -/
def direction_filter_excludes (r : ConsensusRule) (signal : ParsedSignal) : Bool :=
  match r.direction_filter with
  | none => false
  | some f => if f == "" then false else signal.direction != some f

/-- The per-rule loop of `check_new_signal_sync`: skip filtered rules, run
window evaluation, and on the first success create the event and return. -/
def rule_loop (ind : IndicatorEnv) (st : DetectorState) (signal : ParsedSignal) :
    List ConsensusRule → Option ConsensusEvent × DetectorState
  | [] => (none, st)
  | r :: rest =>
      if ticker_filter_excludes r signal then rule_loop ind st signal rest
      else if direction_filter_excludes r signal then rule_loop ind st signal rest
      else
        match find_consensus_window st.signals_db ind signal r.window_minutes r.min_traders
            r.strict_consensus (some r) with
        | some data =>
            let created := create_consensus_event st signal data (some r.id)
            (some created.1, created.2)
        | none => rule_loop ind st signal rest

/-- `check_new_signal_sync`: load the signal, reject non-entry signals and
signals already present in a consensus_signals row, then either apply the
default parameters (no active rules) or the rule loop. -/
def check_new_signal_sync (ind : IndicatorEnv) (st : DetectorState) (signal_id : Nat) :
    Option ConsensusEvent × DetectorState :=
  match st.signals_db.find? (fun s => s.id == signal_id) with
  | none => (none, st)
  | some signal =>
      if signal.signal_type ≠ "entry" then (none, st)
      else if st.memberships.any (fun m => m.signal_id == signal_id) then (none, st)
      else
        match st.rules with
        | [] =>
            match find_consensus_window st.signals_db ind signal 10 2 true none with
            | some data =>
                let created := create_consensus_event st signal data none
                (some created.1, created.2)
            | none => (none, st)
        | r :: rest => rule_loop ind st signal (r :: rest)

/-- Repeated invocation of the detector on the same signal id. -/
def iterate_check (ind : IndicatorEnv) (signal_id : Nat) : Nat → DetectorState → DetectorState
  | 0, st => st
  | n + 1, st => iterate_check ind signal_id n (check_new_signal_sync ind st signal_id).2

/-- Number of consensus_signals rows holding a given signal id. -/
def membership_count (st : DetectorState) (signal_id : Nat) : Nat :=
  (st.memberships.filter (fun m => m.signal_id == signal_id)).length

/-- Row of the instruments table (the two columns the backtester reads). -/
structure Instrument where
  figi : String
  ticker : String
deriving Repr, DecidableEq

/-- The consensus-event dict assembled by `run_backtest` for each detected
window and consumed by `_simulate_trade`. -/
structure TradeEvent where
  ticker : String
  direction : Option String
  timestamp : Int
  traders_count : Nat
  avg_price : Option ℚ
  member_signals : List ParsedSignal
deriving Repr, DecidableEq

/-- The per-trade dict returned by `_simulate_trade`.  The source rounds
the reported price and percentage fields to two decimals when it builds the
dict; the embedding keeps the exact values those roundings are applied to. -/
structure TradeResult where
  ticker : String
  direction : Option String
  entry_time : Int
  exit_time : Int
  entry_price : ℚ
  exit_price : ℚ
  shares : Int
  position_value : ℚ
  pnl_pct : ℚ
  profit_abs : ℚ
  exit_reason : String
  traders_count : Nat
deriving Repr, DecidableEq

/-- Python `int()` applied to a float ratio: truncation toward zero. -/
def float_to_int (x : ℚ) : Int :=
  if 0 ≤ x then ⌊x⌋ else ⌈x⌉

/-- The candle walk of `_simulate_trade`: per candle, the take-profit
condition is tested before the stop-loss condition; a candle that triggers
neither carries its close and time forward; an exhausted list is a timeout
at the carried price and time. -/
def walk_candles (is_long : Bool) (tp_price sl_price : ℚ) :
    List Candle → ℚ → Int → ℚ × String × Int
  | [], acc_price, acc_time => (acc_price, "timeout", acc_time)
  | c :: rest, _, _ =>
      if is_long then
        if decide (tp_price ≤ c.high) then (tp_price, "take_profit", c.time)
        else if decide (c.low ≤ sl_price) then (sl_price, "stop_loss", c.time)
        else walk_candles is_long tp_price sl_price rest c.close c.time
      else
        if decide (c.low ≤ tp_price) then (tp_price, "take_profit", c.time)
        else if decide (sl_price ≤ c.high) then (sl_price, "stop_loss", c.time)
        else walk_candles is_long tp_price sl_price rest c.close c.time

/-- `_simulate_trade`: FIGI lookup, entry at the close of the first hourly
candle at or after the event, integral position sizing, TP/SL/timeout walk
over the holding window, with the no-candle fallback to the latest later
candle, and the final P&L computation. -/
def simulate_trade (instruments : List Instrument) (candles : List Candle)
    (event : TradeEvent) (take_profit_pct stop_loss_pct : ℚ) (holding_hours : Int)
    (capital : ℚ) (position_size_pct : ℚ) : Option TradeResult :=
  match (instruments.find? (fun i => i.ticker == event.ticker)).map (fun i => i.figi) with
  | none => none
  | some figi =>
      let entry_query := candles.filter (fun c =>
        c.instrument_id == figi && decide (event.timestamp ≤ c.time) && c.interval == "hour")
      match (sort_by (fun a b : Candle => decide (a.time ≤ b.time)) entry_query).head? with
      | none => none
      | some entry_candle =>
          let entry_price := entry_candle.close
          let position_value := capital * (position_size_pct / 100)
          let shares := float_to_int (position_value / entry_price)
          if decide (shares ≤ 0) then none
          else
            let is_long := event.direction == some "long"
            let take_profit_price :=
              if is_long then entry_price * (1 + take_profit_pct / 100)
              else entry_price * (1 - take_profit_pct / 100)
            let stop_loss_price :=
              if is_long then entry_price * (1 - stop_loss_pct / 100)
              else entry_price * (1 + stop_loss_pct / 100)
            let exit_deadline := event.timestamp + 3600 * holding_hours
            let holding_candles := sort_by (fun a b : Candle => decide (a.time ≤ b.time))
              (candles.filter (fun c =>
                c.instrument_id == figi && decide (entry_candle.time < c.time) &&
                decide (c.time ≤ exit_deadline) && c.interval == "hour"))
            let walked : Option (ℚ × String × Int) :=
              if holding_candles.isEmpty then
                let after := sort_by (fun a b : Candle => decide (b.time ≤ a.time))
                  (candles.filter (fun c =>
                    c.instrument_id == figi && decide (entry_candle.time < c.time) &&
                    c.interval == "hour"))
                match after.head? with
                | some last_candle => some (last_candle.close, "timeout", last_candle.time)
                | none => none
              else
                some (walk_candles is_long take_profit_price stop_loss_price holding_candles
                  entry_price entry_candle.time)
            match walked with
            | none => none
            | some (exit_price, exit_reason, exit_candle_time) =>
                let pnl_pct :=
                  if is_long then ((exit_price - entry_price) / entry_price) * 100
                  else ((entry_price - exit_price) / entry_price) * 100
                let profit_abs := (shares : ℚ) * entry_price * (pnl_pct / 100)
                some { ticker := event.ticker
                       direction := event.direction
                       entry_time := event.timestamp
                       exit_time := exit_candle_time
                       entry_price := entry_price
                       exit_price := exit_price
                       shares := shares
                       position_value := (shares : ℚ) * entry_price
                       pnl_pct := pnl_pct
                       profit_abs := profit_abs
                       exit_reason := exit_reason
                       traders_count := event.traders_count }

/-- Input bundle of `run_backtest` (the `rule_id` of the source is checked
with `isinstance(rule_id, int)`, so the embedding takes it as an `Int`). -/
structure BacktestInputs where
  rule_id : Int
  start_date : Int
  end_date : Int
  tickers : Option (List String)
  take_profit_pct : ℚ
  stop_loss_pct : ℚ
  holding_hours : Int
  initial_capital : ℚ
  position_size_pct : ℚ
deriving Repr, DecidableEq

/-- The input-validation block at the top of `run_backtest`, returning the
first failing message. -/
def validate_backtest_inputs (inp : BacktestInputs) : Option String :=
  if inp.rule_id ≤ 0 then some "Invalid rule_id. Must be positive integer."
  else if inp.start_date ≥ inp.end_date then some "start_date must be before end_date"
  else if ¬(0 < inp.take_profit_pct ∧ inp.take_profit_pct ≤ 100) then
    some "Invalid take_profit_pct. Must be between 0 and 100."
  else if ¬(0 < inp.stop_loss_pct ∧ inp.stop_loss_pct ≤ 100) then
    some "Invalid stop_loss_pct. Must be between 0 and 100."
  else if inp.holding_hours ≤ 0 then some "Invalid holding_hours. Must be positive."
  else if inp.initial_capital ≤ 0 then some "Invalid initial_capital. Must be positive."
  else if ¬(0 < inp.position_size_pct ∧ inp.position_size_pct ≤ 100) then
    some "Invalid position_size_pct. Must be between 0 and 100."
  else none

/-- The disjunction of the invalidity conditions that the validation block
of `run_backtest` rejects. -/
def invalid_backtest_inputs (inp : BacktestInputs) : Prop :=
  inp.rule_id ≤ 0 ∨ inp.start_date ≥ inp.end_date ∨
  ¬(0 < inp.take_profit_pct ∧ inp.take_profit_pct ≤ 100) ∨
  ¬(0 < inp.stop_loss_pct ∧ inp.stop_loss_pct ≤ 100) ∨
  inp.holding_hours ≤ 0 ∨ inp.initial_capital ≤ 0 ∨
  ¬(0 < inp.position_size_pct ∧ inp.position_size_pct ≤ 100)

instance (inp : BacktestInputs) : Decidable (invalid_backtest_inputs inp) := by
  unfold invalid_backtest_inputs
  infer_instance

/-- Error taxonomy of `run_backtest` (both kinds are `ValueError` at the
Python level; the messages distinguish the validation block from the rule
lookup). -/
inductive BacktestError where
  | validation (msg : String)
  | not_found (msg : String)
deriving Repr, DecidableEq

/-- Per-ticker rollup of `_calculate_statistics`. -/
structure TickerStats where
  count : Nat
  profitable : Nat
  total_pnl : ℚ
  total_profit_abs : ℚ
deriving Repr, DecidableEq

/-- Aggregate statistics of `_calculate_statistics` (exact values; the
source rounds most of them to two decimals for the result dict). -/
structure BacktestStats where
  profitable_count : Nat
  loss_count : Nat
  win_rate : ℚ
  avg_profit_pct : ℚ
  avg_loss_pct : ℚ
  max_profit_pct : ℚ
  max_loss_pct : ℚ
  total_return_pct : ℚ
  total_profit_abs : ℚ
  by_ticker : List (String × TickerStats)
deriving Repr, DecidableEq

/-- In-place update of the per-ticker dict, preserving insertion order. -/
def upd_ticker_stats (acc : List (String × TickerStats)) (r : TradeResult) :
    List (String × TickerStats) :=
  let add := fun (t : TickerStats) =>
    { count := t.count + 1
      profitable := if r.pnl_pct > 0 then t.profitable + 1 else t.profitable
      total_pnl := t.total_pnl + r.pnl_pct
      total_profit_abs := t.total_profit_abs + r.profit_abs }
  if acc.any (fun p => p.1 == r.ticker) then
    acc.map (fun p => if p.1 == r.ticker then (p.1, add p.2) else p)
  else
    acc ++ [(r.ticker, add { count := 0, profitable := 0, total_pnl := 0, total_profit_abs := 0 })]

/-- `_calculate_statistics`. -/
def calculate_statistics (results : List TradeResult) (initial_capital : ℚ) : BacktestStats :=
  if results.isEmpty then
    { profitable_count := 0, loss_count := 0, win_rate := 0, avg_profit_pct := 0
      avg_loss_pct := 0, max_profit_pct := 0, max_loss_pct := 0, total_return_pct := 0
      total_profit_abs := 0, by_ticker := [] }
  else
    let profits := results.filter (fun r => decide (r.pnl_pct > 0))
    let losses := results.filter (fun r => decide (r.pnl_pct ≤ 0))
    let win_rate := ((profits.length : ℚ) / (results.length : ℚ)) * 100
    let avg_profit :=
      if profits.isEmpty then 0 else (profits.map (fun r => r.pnl_pct)).sum / (profits.length : ℚ)
    let avg_loss :=
      if losses.isEmpty then 0 else (losses.map (fun r => r.pnl_pct)).sum / (losses.length : ℚ)
    let max_profit := ((results.map (fun r => r.pnl_pct)).foldl max 0)
    let max_loss := ((results.map (fun r => r.pnl_pct)).foldl min 0)
    let total_abs := (results.map (fun r => r.profit_abs)).sum
    let total_return := if initial_capital > 0 then (total_abs / initial_capital) * 100 else 0
    { profitable_count := profits.length
      loss_count := losses.length
      win_rate := win_rate
      avg_profit_pct := avg_profit
      avg_loss_pct := avg_loss
      max_profit_pct := max_profit
      max_loss_pct := max_loss
      total_return_pct := total_return
      total_profit_abs := total_abs
      by_ticker := results.foldl upd_ticker_stats [] }

/-- One step of the detection replay of `run_backtest`: skip signals
already absorbed into an earlier event, otherwise run window evaluation
with the rule parameters and collect the event dict. -/
def backtest_detect_step (db : List ParsedSignal) (ind : IndicatorEnv) (rule : ConsensusRule)
    (st : List Nat × List TradeEvent) (signal : ParsedSignal) : List Nat × List TradeEvent :=
  let (processed, events) := st
  if processed.contains signal.id then (processed, events)
  else
    match find_consensus_window db ind signal rule.window_minutes rule.min_traders
        rule.strict_consensus (some rule) with
    | none => (processed, events)
    | some data =>
        let prices := target_prices data.signals
        (processed ++ data.signals.map (fun s => s.id),
         events ++ [{ ticker := signal.ticker
                      direction := data.direction
                      timestamp := signal.timestamp
                      traders_count := data.unique_authors.length
                      avg_price := avg_price_of prices
                      member_signals := data.signals }])

/-- The sequential trade loop of `run_backtest`, threading capital through
the successful simulations. -/
def run_trades (instruments : List Instrument) (candles : List Candle)
    (take_profit_pct stop_loss_pct : ℚ) (holding_hours : Int) (position_size_pct : ℚ) :
    List TradeEvent → ℚ → List (TradeResult × ℚ) × ℚ
  | [], capital => ([], capital)
  | e :: rest, capital =>
      match simulate_trade instruments candles e take_profit_pct stop_loss_pct holding_hours
          capital position_size_pct with
      | none => run_trades instruments candles take_profit_pct stop_loss_pct holding_hours
          position_size_pct rest capital
      | some r =>
          let capital2 := capital + r.profit_abs
          let tail := run_trades instruments candles take_profit_pct stop_loss_pct holding_hours
            position_size_pct rest capital2
          ((r, capital2) :: tail.1, tail.2)

/-- Row of the consensus_backtests table (`execution_time_seconds` is
wall-clock and not modelled). -/
structure BacktestRecord where
  rule_id : Int
  start_date : Int
  end_date : Int
  tickers : Option String
  total_consensus_found : Nat
  stats : BacktestStats
  status : String
deriving Repr, DecidableEq

/-- Database state seen by the backtester. -/
structure BacktestState where
  rules : List ConsensusRule
  signals : List ParsedSignal
  instruments : List Instrument
  candles : List Candle
  backtests : List BacktestRecord
deriving Repr, DecidableEq

/-- Successful outcome dict of `run_backtest`. -/
structure BacktestOutcome where
  stats : BacktestStats
  results : List (TradeResult × ℚ)
  initial_capital : ℚ
  final_capital : ℚ
deriving Repr, DecidableEq

/-- `run_backtest`: the validation block, the rule lookup, the period
query with ticker narrowing, the detection replay, the trade loop, the
statistics, and the persisted record.  Errors leave the state unchanged
(the session rolls back). -/
def run_backtest (st : BacktestState) (ind : IndicatorEnv) (inp : BacktestInputs) :
    Except BacktestError BacktestOutcome × BacktestState :=
  match validate_backtest_inputs inp with
  | some msg => (.error (.validation msg), st)
  | none =>
      match st.rules.find? (fun r => (r.id : Int) == inp.rule_id) with
      | none => (.error (.not_found "Rule not found"), st)
      | some rule =>
          let rule_tickers : Option (List String) :=
            match rule.ticker_filter with
            | some f => if f == "" then none else some ((f.splitOn ",").map (fun t => t.trim))
            | none => none
          let tickers : Option (List String) :=
            match inp.tickers with
            | some ts => if ts.isEmpty then rule_tickers else some ts
            | none => rule_tickers
          let sigs := sort_by (fun a b : ParsedSignal => decide (a.timestamp ≤ b.timestamp))
            (st.signals.filter (fun s =>
              decide (inp.start_date ≤ s.timestamp) && decide (s.timestamp ≤ inp.end_date) &&
              s.signal_type == "entry" &&
              (match tickers with | none => true | some ts => ts.contains s.ticker)))
          let detected := sigs.foldl (backtest_detect_step st.signals ind rule) ([], [])
          let events := detected.2
          let traded := run_trades st.instruments st.candles inp.take_profit_pct
            inp.stop_loss_pct inp.holding_hours inp.position_size_pct events inp.initial_capital
          let stats := calculate_statistics (traded.1.map (fun p => p.1)) inp.initial_capital
          let record : BacktestRecord :=
            { rule_id := inp.rule_id
              start_date := inp.start_date
              end_date := inp.end_date
              tickers :=
                match tickers with
                | some ts => if ts.isEmpty then none else some (String.intercalate "," ts)
                | none => none
              total_consensus_found := events.length
              stats := stats
              status := "completed" }
          (.ok { stats := stats, results := traded.1, initial_capital := inp.initial_capital
                 final_capital := traded.2 },
           { st with backtests := st.backtests ++ [record] })

/-- One OHLCV bar as consumed by `calculate_obv` (only the close and
volume columns are read). -/
structure Bar where
  close : ℚ
  volume : ℚ
deriving Repr, DecidableEq

/-- The loop body of `calculate_obv` for indices `i ≥ 1`: add the volume on
an up-move, subtract it on a down-move, carry on an unchanged close. -/
def obv_tail (prev_close prev_obv : ℚ) : List Bar → List ℚ
  | [] => []
  | b :: rest =>
      let o :=
        if b.close > prev_close then prev_obv + b.volume
        else if b.close < prev_close then prev_obv - b.volume
        else prev_obv
      o :: obv_tail b.close o rest

/-- `TechnicalIndicators.calculate_obv`: a series of fewer than 2 bars is
returned as zeros of the same length; otherwise the series starts at the
first volume and follows the signed-volume recurrence. -/
def calculate_obv (bars : List Bar) : List ℚ :=
  if bars.length < 2 then bars.map (fun _ => 0)
  else
    match bars with
    | [] => []
    | b :: rest => b.volume :: obv_tail b.close b.volume rest

/-- Sign function of the OBV specification sentence, with `sign 0 = 0`. -/
def obv_sign (d : ℚ) : ℚ :=
  if d > 0 then 1 else if d < 0 then -1 else 0

/-- Modelled from the spec: the OBV law `obv[0] = volume[0]` and
`obv[i] = obv[i-1] + sign(close[i] - close[i-1]) * volume[i]`, written as a
recursive reference series to compare `calculate_obv` against. -/
def spec_obv_tail (prev_close prev_obv : ℚ) : List Bar → List ℚ
  | [] => []
  | b :: rest =>
      let o := prev_obv + obv_sign (b.close - prev_close) * b.volume
      o :: spec_obv_tail b.close o rest

/-- Modelled from the spec: the full reference OBV series. -/
def spec_obv : List Bar → List ℚ
  | [] => []
  | b :: rest => b.volume :: spec_obv_tail b.close b.volume rest

/-- Result of a successful probe of the `operation_exit` patterns: the
two direction regexes subsequently run on the matched substring. -/
structure ExitHit where
  has_long_word : Bool
  has_short_word : Bool
deriving Repr, DecidableEq

/-- Oracle for the regex probes of `_analyze_operation`: whether an exit
pattern matched (and what its matched text mentions), whether a
direction_long / direction_short pattern matched, and the loose word-bound
long / short checks on the whole text. -/
structure OperationProbe where
  exit_hit : Option ExitHit
  long_hit : Bool
  short_hit : Bool
  word_long : Bool
  word_short : Bool
deriving Repr, DecidableEq

/-- `_analyze_operation`: exit patterns first (direction from the matched
substring), then the direction pattern lists, then the loose word check,
defaulting to an entry with mixed direction. -/
def analyze_operation (p : OperationProbe) : String × String :=
  match p.exit_hit with
  | some h =>
      if h.has_long_word then ("exit", "long")
      else if h.has_short_word then ("exit", "short")
      else ("exit", "mixed")
  | none =>
      if p.long_hit then ("entry", "long")
      else if p.short_hit then ("entry", "short")
      else if p.word_long then ("entry", "long")
      else if p.word_short then ("entry", "short")
      else ("entry", "mixed")

/-- Python `text.split()` word count: split on whitespace runs, dropping
empty fragments. -/
def word_count (text : String) : Nat :=
  ((text.split (fun c => c.isWhitespace)).filter (fun w => w ≠ "")).length

/-- Substring containment via `splitOn` (Python `needle in haystack` for a
nonempty needle). -/
def str_contains (haystack needle : String) : Bool :=
  (haystack.splitOn needle).length > 1

/-- The keyword bonus check of `_calculate_confidence`:
`any(keyword in text.lower() for keyword in [...])`.  `String.toLower`
only folds ASCII letters whereas Python lowercases Cyrillic; the three
keywords are Cyrillic lowercase, so the check matches texts already in
lowercase either way. -/
def has_deal_keyword (text : String) : Bool :=
  str_contains text.toLower "сделка" || str_contains text.toLower "позиция" ||
    str_contains text.toLower "сигнал"

/-- `_calculate_confidence`: 0.4 for a truthy ticker, 0.3 for a definite
direction, 0.2 for a truthy operation, 0.05 for more than three words,
0.05 for a deal keyword, clamped at 1.0. -/
def calculate_confidence (text ticker direction operation : String) : ℚ :=
  let c1 : ℚ := if ticker ≠ "" then 0 + 0.4 else 0
  let c2 : ℚ := if direction ≠ "" ∧ direction ≠ "mixed" then c1 + 0.3 else c1
  let c3 : ℚ := if operation ≠ "" then c2 + 0.2 else c2
  let c4 : ℚ := if word_count text > 3 then c3 + 0.05 else c3
  let c5 : ℚ := if has_deal_keyword text then c4 + 0.05 else c4
  min c5 1

/-- Oracle for the regex probes of `parse_raw_message` that the confidence
computation depends on: the trading-message triviality check and the
uppercased first ticker match (`none` for no match; the empty string for a
match with an empty first group). -/
structure ParseProbe where
  is_trading : Bool
  found_ticker : Option String
  op : OperationProbe
deriving Repr, DecidableEq

/-- `ParseResult` as far as the core consumes it. -/
structure MsgParseResult where
  success : Bool
  error : Option String
  confidence : ℚ
  ticker : Option String
  direction : Option String
  signal_type : Option String
deriving Repr, DecidableEq

/-- `parse_raw_message`: reject blank text, non-trading text and a missing
ticker, then classify the operation and compute the confidence of the
successful parse. -/
def parse_raw_message (text : String) (probe : ParseProbe) : MsgParseResult :=
  -- `not text or not text.strip()`: the strip of a string is empty exactly
  -- when every character is whitespace
  if text == "" || text.toList.all (fun c => c.isWhitespace) then
    { success := false, error := some "Empty message text", confidence := 0
      ticker := none, direction := none, signal_type := none }
  else
    let cleaned := text.trim
    if !probe.is_trading then
      { success := false, error := some "Not a trading message", confidence := 0
        ticker := none, direction := none, signal_type := none }
    else
      match probe.found_ticker with
      | none =>
          { success := false, error := some "No ticker found", confidence := 0
            ticker := none, direction := none, signal_type := none }
      | some tk =>
          if tk == "" then
            { success := false, error := some "No ticker found", confidence := 0
              ticker := none, direction := none, signal_type := none }
          else
            let od := analyze_operation probe.op
            let conf := calculate_confidence cleaned tk od.2 od.1
            { success := true, error := none, confidence := conf
              ticker := some tk, direction := some od.2, signal_type := some od.1 }

/-- Outcome of the consensus check attempted for a freshly saved signal:
either a normal return (found or not) or an exception, which the service
catches and logs. -/
inductive DetOutcome where
  | ok (found : Bool)
  | raises
deriving Repr, DecidableEq

/-- Per-message environment of the batch loop of
`parse_all_unprocessed_messages`: the message id, the parse outcome, the
`save_signal` outcome and the detector outcome. -/
structure MsgCase where
  msg_id : Nat
  parse_success : Bool
  parse_error : Option String
  save_id : Option Nat
  det : DetOutcome
deriving Repr, DecidableEq

/-- Aggregate stats dict of `parse_all_unprocessed_messages`. -/
structure BatchStats where
  total_processed : Nat
  successful_parses : Nat
  failed_parses : Nat
  trading_messages : Nat
  non_trading_messages : Nat
  errors : List (Nat × Option String)
deriving Repr, DecidableEq

/-- The zero-valued stats dict. -/
def empty_stats : BatchStats :=
  { total_processed := 0, successful_parses := 0, failed_parses := 0
    trading_messages := 0, non_trading_messages := 0, errors := [] }

/-- One iteration of the batch loop: on a successful parse and save, count
the success, mark the message processed with `parse_success=true`, and run
the detector inside its own try block — both the normal and the raising
detector outcome continue identically; on the other paths, count the
failure and mark the message with `parse_success=false`. -/
def process_message (acc : BatchStats × List (Nat × Bool)) (m : MsgCase) :
    BatchStats × List (Nat × Bool) :=
  let stats := { acc.1 with total_processed := acc.1.total_processed + 1 }
  let marks := acc.2
  if m.parse_success then
    match m.save_id with
    | some _ =>
        let stats := { stats with
          successful_parses := stats.successful_parses + 1
          trading_messages := stats.trading_messages + 1 }
        let marks := marks ++ [(m.msg_id, true)]
        match m.det with
        | .ok _ => (stats, marks)
        | .raises => (stats, marks)
    | none =>
        ({ stats with failed_parses := stats.failed_parses + 1 }, marks ++ [(m.msg_id, false)])
  else
    let stats := { stats with failed_parses := stats.failed_parses + 1 }
    let stats :=
      if m.parse_error ≠ some "Not a trading message" then
        { stats with errors := stats.errors ++ [(m.msg_id, m.parse_error)] }
      else
        { stats with non_trading_messages := stats.non_trading_messages + 1 }
    (stats, marks ++ [(m.msg_id, false)])

/-- `parse_all_unprocessed_messages` over the fetched batch, returning the
stats dict together with the `mark_message_processed` effects in order. -/
def parse_all_unprocessed (msgs : List MsgCase) : BatchStats × List (Nat × Bool) :=
  msgs.foldl process_message (empty_stats, [])

/-- Modelled from the spec sentence of the strength claim: 50 adjusted for
author count, price spread and the time span between the earliest and the
latest member signal, clamped to [0, 100] — with the time adjustment
applied unconditionally, as the claim reads. -/
def claim_strength (authors : Nat) (spread : Option ℚ) (span_seconds : Int) : Int :=
  let s1 : Int := 50
  let s2 : Int :=
    if authors ≥ 5 then s1 + 20
    else if authors ≥ 4 then s1 + 10
    else s1
  let s3 : Int :=
    match spread with
    | none => s2
    | some ps =>
        if ps < 1 then s2 + 15
        else if ps < 2 then s2 + 5
        else if ps > 5 then s2 - 10
        else s2
  let s4 : Int :=
    if ((span_seconds : ℚ) / 60) < 10 then s3 + 15
    else if ((span_seconds : ℚ) / 60) < 20 then s3 + 5
    else s3
  max 0 (min 100 s4)

/-- The amended strength law: identical to `claim_strength` except that the
time-span adjustment only applies to events with more than one member
signal, which is what the source computes. -/
def amended_strength (authors : Nat) (spread : Option ℚ) (span_seconds : Int)
    (total_signals : Nat) : Int :=
  let s1 : Int := 50
  let s2 : Int :=
    if authors ≥ 5 then s1 + 20
    else if authors ≥ 4 then s1 + 10
    else s1
  let s3 : Int :=
    match spread with
    | none => s2
    | some ps =>
        if ps < 1 then s2 + 15
        else if ps < 2 then s2 + 5
        else if ps > 5 then s2 - 10
        else s2
  let s4 : Int :=
    if total_signals > 1 then
      if ((span_seconds : ℚ) / 60) < 10 then s3 + 15
      else if ((span_seconds : ℚ) / 60) < 20 then s3 + 5
      else s3
    else s3
  max 0 (min 100 s4)

/-- Indicator environment with no candle data, used for concrete
instantiations. -/
def trivial_ind : IndicatorEnv :=
  { candles := [], figi_of := fun _ => none, rsi_last := fun _ => none
    sig_of := fun _ _ => none }

/-- A single entry signal used by concrete instantiations. -/
def sig_a : ParsedSignal :=
  { id := 1, ticker := "ABC", direction := some "long", signal_type := "entry"
    author := some "A", timestamp := 0, target_price := none }

/-- A second entry signal by another author, two minutes later. -/
def sig_b : ParsedSignal :=
  { id := 2, ticker := "ABC", direction := some "long", signal_type := "entry"
    author := some "B", timestamp := 120, target_price := none }

/-- A short-direction entry signal inside the same window. -/
def sig_c : ParsedSignal :=
  { id := 3, ticker := "ABC", direction := some "short", signal_type := "entry"
    author := some "C", timestamp := 60, target_price := none }

/-- A permissive rule with `min_traders = 1` and no filters. -/
def rule_one : ConsensusRule :=
  { id := 7, window_minutes := 10, min_traders := 1, strict_consensus := true
    ticker_filter := none, direction_filter := none, indicator_conditions := [] }

/-- Detector state holding exactly `sig_a` and the permissive rule. -/
def state_one : DetectorState :=
  { signals_db := [sig_a], rules := [rule_one], events := [], memberships := []
    next_event_id := 0 }

/-- Detector state holding `sig_a`, `sig_b` and no rules (default
parameters apply). -/
def state_two : DetectorState :=
  { signals_db := [sig_a, sig_b], rules := [], events := [], memberships := []
    next_event_id := 0 }

/-- Instrument fixture: ticker ABC with FIGI F. -/
def inst_abc : Instrument := { figi := "F", ticker := "ABC" }

/-- Entry candle fixture at time 0 closing at 100. -/
def candle_entry : Candle :=
  { instrument_id := "F", interval := "hour", time := 0, open_price := 100
    high := 101, low := 99, close := 100, volume := 10 }

/-- Next-hour candle fixture whose high reaches the 5 percent take-profit
level and whose low reaches the 3 percent stop level. -/
def candle_next : Candle :=
  { instrument_id := "F", interval := "hour", time := 3600, open_price := 100
    high := 106, low := 96, close := 100, volume := 10 }

/-- Backtest trade-event fixture on ABC long at time 0. -/
def event_abc : TradeEvent :=
  { ticker := "ABC", direction := some "long", timestamp := 0, traders_count := 2
    avg_price := none, member_signals := [] }

/-- The consensus event the detector creates from `state_one`. -/
def event_one : ConsensusEvent :=
  { id := 0, ticker := "ABC", direction := some "long", traders_count := 1
    window_minutes := 10, rule_id := some 7, first_signal_at := 0
    last_signal_at := 0, avg_entry_price := none, min_entry_price := none
    max_entry_price := none, price_spread_pct := none, consensus_strength := 50
    status := "active", meta_authors := ["A"], meta_trigger_signal_id := 1
    meta_total_signals := 1 }

/-- The detector state after `event_one` is created from `state_one`. -/
def state_one_after : DetectorState :=
  { signals_db := [sig_a], rules := [rule_one], events := [event_one]
    memberships := [{ consensus_id := 0, signal_id := 1, is_initiator := true }]
    next_event_id := 1 }

theorem insert_sorted_perm {α : Type} (le : α → α → Bool) (x : α) (l : List α) :
    (insert_sorted le x l).Perm (x :: l) := by
  induction l with
  | nil => exact List.Perm.refl _
  | cons y ys ih =>
      unfold insert_sorted
      split
      · exact ((ih.cons y).trans (List.Perm.swap x y ys))
      · exact List.Perm.refl _

theorem sort_by_perm_aux {α : Type} (le : α → α → Bool) (l : List α) :
    ∀ acc : List α, (l.foldl (fun acc x => insert_sorted le x acc) acc).Perm (acc ++ l) := by
  induction l with
  | nil => intro acc; simp
  | cons x xs ih =>
      intro acc
      rw [List.foldl_cons]
      refine (ih (insert_sorted le x acc)).trans ?_
      have h1 : (insert_sorted le x acc ++ xs).Perm ((x :: acc) ++ xs) :=
        List.Perm.append_right xs (insert_sorted_perm le x acc)
      refine h1.trans ?_
      have h2 : (acc ++ x :: xs).Perm (x :: (acc ++ xs)) := List.perm_middle
      exact (h2.symm)

theorem sort_by_perm {α : Type} (le : α → α → Bool) (l : List α) :
    (sort_by le l).Perm l := by
  have := sort_by_perm_aux le l []
  simpa [sort_by] using this

theorem insert_sorted_pairwise {α : Type} (le : α → α → Bool)
    (htrans : ∀ a b c, le a b = true → le b c = true → le a c = true)
    (htotal : ∀ a b, le a b = true ∨ le b a = true)
    (x : α) (l : List α) (hl : l.Pairwise (fun a b => le a b = true)) :
    (insert_sorted le x l).Pairwise (fun a b => le a b = true) := by
  induction l with
  | nil => simp [insert_sorted]
  | cons y ys ih =>
      unfold insert_sorted
      rcases List.pairwise_cons.mp hl with ⟨hy, hys⟩
      split
      · next hle =>
          refine List.pairwise_cons.mpr ⟨?_, ih hys⟩
          intro z hz
          have hz2 : z ∈ x :: ys := (insert_sorted_perm le x ys).mem_iff.mp hz
          rcases List.mem_cons.mp hz2 with rfl | hz3
          · exact hle
          · exact hy z hz3
      · next hle =>
          have hxy : le x y = true := by
            rcases htotal x y with h | h
            · exact h
            · exact absurd h hle
          refine List.pairwise_cons.mpr ⟨?_, hl⟩
          intro z hz
          rcases List.mem_cons.mp hz with rfl | hz3
          · exact hxy
          · exact htrans x y z hxy (hy z hz3)

theorem sort_by_pairwise_aux {α : Type} (le : α → α → Bool)
    (htrans : ∀ a b c, le a b = true → le b c = true → le a c = true)
    (htotal : ∀ a b, le a b = true ∨ le b a = true) (l : List α) :
    ∀ acc : List α, acc.Pairwise (fun a b => le a b = true) →
      (l.foldl (fun acc x => insert_sorted le x acc) acc).Pairwise
        (fun a b => le a b = true) := by
  induction l with
  | nil => intro acc hacc; simpa using hacc
  | cons x xs ih =>
      intro acc hacc
      rw [List.foldl_cons]
      exact ih _ (insert_sorted_pairwise le htrans htotal x acc hacc)

theorem sort_by_pairwise {α : Type} (le : α → α → Bool)
    (htrans : ∀ a b c, le a b = true → le b c = true → le a c = true)
    (htotal : ∀ a b, le a b = true ∨ le b a = true) (l : List α) :
    (sort_by le l).Pairwise (fun a b => le a b = true) := by
  exact sort_by_pairwise_aux le htrans htotal l [] (by simp)

theorem length_sort_by {α : Type} (le : α → α → Bool) (l : List α) :
    (sort_by le l).length = l.length :=
  (sort_by_perm le l).length_eq

theorem length_fetch_candles (ind : IndicatorEnv) (ticker : String) (ts : Int) :
    (fetch_candles ind ticker ts).length ≤ (candidate_candles ind ticker ts).length := by
  unfold fetch_candles
  rw [List.length_take, length_sort_by]
  exact min_le_right _ _

theorem check_indicator_conditions_short (ind : IndicatorEnv) (ticker : String) (ts : Int)
    (conditions : List (String × IndCond))
    (h : (candidate_candles ind ticker ts).length < 30) :
    check_indicator_conditions ind ticker ts conditions = true := by
  unfold check_indicator_conditions
  split
  · rfl
  · have hlt : (fetch_candles ind ticker ts).length < 30 :=
      lt_of_le_of_lt (length_fetch_candles ind ticker ts) h
    rw [if_pos hlt]

theorem find_consensus_window_gate_irrelevant (db : List ParsedSignal) (ind : IndicatorEnv)
    (signal : ParsedSignal) (w mt : Int) (strict : Bool) (r : ConsensusRule)
    (h : check_indicator_conditions ind signal.ticker signal.timestamp r.indicator_conditions
          = true) :
    find_consensus_window db ind signal w mt strict (some r) =
      find_consensus_window db ind signal w mt strict none := by
  unfold find_consensus_window
  simp only [h, ite_self]

/-- C7: when fewer than 30 hourly candles at or before the trigger
timestamp are available for the ticker, `_check_indicator_conditions`
passes regardless of the configured conditions, and window evaluation
under any rule coincides with evaluation under no rule at all, so a window
is never rejected on indicator grounds. -/
theorem claim7_insufficient_data_passes (ind : IndicatorEnv) (signal : ParsedSignal)
    (conditions : List (String × IndCond))
    (h : (candidate_candles ind signal.ticker signal.timestamp).length < 30) :
    check_indicator_conditions ind signal.ticker signal.timestamp conditions = true ∧
    (∀ (db : List ParsedSignal) (w mt : Int) (strict : Bool) (r : ConsensusRule),
      find_consensus_window db ind signal w mt strict (some r) =
        find_consensus_window db ind signal w mt strict none) := by
  refine ⟨check_indicator_conditions_short ind signal.ticker signal.timestamp conditions h,
    fun db w mt strict r => ?_⟩
  exact find_consensus_window_gate_irrelevant db ind signal w mt strict r
    (check_indicator_conditions_short ind signal.ticker signal.timestamp
      r.indicator_conditions h)

/-- Witness for C7 at a concrete environment with no candles and an
enabled RSI bound that would otherwise reject. -/
theorem claim7_witness :
    (candidate_candles trivial_ind "ABC" 0).length < 30 ∧
    check_indicator_conditions trivial_ind "ABC" 0
      [("rsi", { enabled := true, min := some 99, max := none, signal := none })] = true := by
  refine ⟨by decide, ?_⟩
  exact (claim7_insufficient_data_passes trivial_ind sig_a
    [("rsi", { enabled := true, min := some 99, max := none, signal := none })]
    (by decide)).1

theorem obv_tail_eq_spec (l : List Bar) : ∀ pc po : ℚ,
    obv_tail pc po l = spec_obv_tail pc po l := by
  induction l with
  | nil => intro pc po; rfl
  | cons b rest ih =>
      intro pc po
      have ho : (if b.close > pc then po + b.volume
            else if b.close < pc then po - b.volume else po)
          = po + obv_sign (b.close - pc) * b.volume := by
        unfold obv_sign
        rcases lt_trichotomy pc b.close with hlt | heq | hgt
        · have h2 : b.close - pc > 0 := by linarith
          rw [if_pos hlt, if_pos h2]; ring
        · have h1 : ¬ b.close > pc := by rw [heq]; exact lt_irrefl _
          have h2 : ¬ b.close < pc := by rw [heq]; exact lt_irrefl _
          have h3 : ¬ b.close - pc > 0 := by rw [heq]; simp
          have h4 : ¬ b.close - pc < 0 := by rw [heq]; simp
          rw [if_neg h1, if_neg h2, if_neg h3, if_neg h4]; ring
        · have h1 : ¬ b.close > pc := not_lt_of_gt hgt
          have h3 : ¬ b.close - pc > 0 := by linarith
          have h4 : b.close - pc < 0 := by linarith
          rw [if_neg h1, if_pos hgt, if_neg h3, if_pos h4]; ring
      simp only [obv_tail, spec_obv_tail]
      rw [ho]
      exact congrArg _ (ih b.close (po + obv_sign (b.close - pc) * b.volume))

theorem obv_tail_length (l : List Bar) : ∀ pc po : ℚ, (obv_tail pc po l).length = l.length := by
  induction l with
  | nil => intro pc po; rfl
  | cons b rest ih => intro pc po; simp [obv_tail, ih]

/-- Counterexample for C9: on the one-bar input with volume 7 the source
returns the all-zero series, not `[volume[0]]` as the claim requires for
every non-empty input. -/
theorem claim9_counterexample :
    calculate_obv [{ close := 10, volume := 7 }] = [0] ∧ (0 : ℚ) ≠ 7 := by
  constructor
  · rfl
  · norm_num

/-- C9 (amended): for inputs of at least two bars `calculate_obv` agrees
with the reference series built from `obv[0] = volume[0]` and
`obv[i] = obv[i-1] + sign(close[i] - close[i-1]) * volume[i]`; an input of
fewer than two bars yields the all-zero series; the output always has the
input's length.  The embedding is pure, so the input is not mutated. -/
theorem claim9_amended (bars : List Bar) :
    (2 ≤ bars.length → calculate_obv bars = spec_obv bars) ∧
    (bars.length < 2 → calculate_obv bars = bars.map (fun _ => 0)) ∧
    (calculate_obv bars).length = bars.length := by
  refine ⟨fun h2 => ?_, fun hlt => ?_, ?_⟩
  · unfold calculate_obv
    rw [if_neg (by omega)]
    match bars, h2 with
    | b :: rest, _ =>
        simp only [spec_obv]
        exact congrArg _ (obv_tail_eq_spec rest b.close b.volume)
  · unfold calculate_obv
    rw [if_pos hlt]
  · unfold calculate_obv
    split
    · simp
    · match bars with
      | [] => rfl
      | b :: rest => simp [obv_tail_length]

/-- Witness for C9 (amended) at a concrete three-bar input. -/
theorem claim9_witness :
    2 ≤ ([{ close := 10, volume := 3 }, { close := 11, volume := 5 },
          { close := 9, volume := 2 }] : List Bar).length ∧
    calculate_obv [{ close := 10, volume := 3 }, { close := 11, volume := 5 },
          { close := 9, volume := 2 }]
      = spec_obv [{ close := 10, volume := 3 }, { close := 11, volume := 5 },
          { close := 9, volume := 2 }] := by
  exact ⟨by decide, (claim9_amended _).1 (by decide)⟩

theorem walk_candles_long_tp (tp sl : ℚ) (c : Candle) (rest : List Candle)
    (hc : tp ≤ c.high) : ∀ (pre : List Candle) (p0 : ℚ) (t0 : Int),
    (∀ b ∈ pre, b.high < tp ∧ sl < b.low) →
    walk_candles true tp sl (pre ++ c :: rest) p0 t0 = (tp, "take_profit", c.time) := by
  intro pre
  induction pre with
  | nil =>
      intro p0 t0 _
      simp [walk_candles, hc]
  | cons b pre' ih =>
      intro p0 t0 hpre
      have hb := hpre b (by simp)
      have hb1 : ¬ tp ≤ b.high := not_le.mpr hb.1
      have hb2 : ¬ b.low ≤ sl := not_le.mpr hb.2
      simp only [List.cons_append, walk_candles, if_true, decide_eq_true_eq]
      rw [if_neg hb1, if_neg hb2]
      exact ih b.close b.time (fun x hx => hpre x (by simp [hx]))

theorem walk_candles_short_tp (tp sl : ℚ) (c : Candle) (rest : List Candle)
    (hc : c.low ≤ tp) : ∀ (pre : List Candle) (p0 : ℚ) (t0 : Int),
    (∀ b ∈ pre, tp < b.low ∧ b.high < sl) →
    walk_candles false tp sl (pre ++ c :: rest) p0 t0 = (tp, "take_profit", c.time) := by
  intro pre
  induction pre with
  | nil =>
      intro p0 t0 _
      simp [walk_candles, hc]
  | cons b pre' ih =>
      intro p0 t0 hpre
      have hb := hpre b (by simp)
      have hb1 : ¬ b.low ≤ tp := not_le.mpr hb.1
      have hb2 : ¬ sl ≤ b.high := not_le.mpr hb.2
      simp only [List.cons_append, walk_candles, if_false, decide_eq_true_eq]
      rw [if_neg hb1, if_neg hb2]
      exact ih b.close b.time (fun x hx => hpre x (by simp [hx]))

/-- C4: in the candle walk of `_simulate_trade` the take-profit condition
is tested before the stop-loss condition.  If the first triggering candle
touches both levels — for a long trade `high ≥ tp` and `low ≤ sl`, for a
short trade `low ≤ tp` and `high ≥ sl` — the trade exits at the
take-profit price with reason `take_profit` at that candle. -/
theorem claim4_tp_tested_before_sl (tp sl : ℚ) (pre : List Candle) (c : Candle)
    (rest : List Candle) (p0 : ℚ) (t0 : Int) :
    ((∀ b ∈ pre, b.high < tp ∧ sl < b.low) → tp ≤ c.high → c.low ≤ sl →
      walk_candles true tp sl (pre ++ c :: rest) p0 t0 = (tp, "take_profit", c.time)) ∧
    ((∀ b ∈ pre, tp < b.low ∧ b.high < sl) → c.low ≤ tp → sl ≤ c.high →
      walk_candles false tp sl (pre ++ c :: rest) p0 t0 = (tp, "take_profit", c.time)) := by
  constructor
  · intro hpre hc _
    exact walk_candles_long_tp tp sl c rest hc pre p0 t0 hpre
  · intro hpre hc _
    exact walk_candles_short_tp tp sl c rest hc pre p0 t0 hpre

/-- Witness for C4: a long trade whose second candle touches both levels
exits at the take-profit price there. -/
theorem claim4_witness :
    walk_candles true 105 97
        ([{ instrument_id := "F", interval := "hour", time := 10, open_price := 100
            high := 101, low := 99, close := 100, volume := 1 }] ++
          { instrument_id := "F", interval := "hour", time := 20, open_price := 100
            high := 106, low := 96, close := 100, volume := 1 } :: [])
        100 0 = (105, "take_profit", 20) := by
  exact (claim4_tp_tested_before_sl 105 97 _ _ [] 100 0).1
    (by intro b hb; simp at hb; subst hb; constructor <;> norm_num)
    (by norm_num) (by norm_num)

theorem analyze_operation_fst (p : OperationProbe) :
    (analyze_operation p).1 = "entry" ∨ (analyze_operation p).1 = "exit" := by
  unfold analyze_operation
  rcases p.exit_hit with _ | h
  · simp only
    split_ifs <;> simp
  · simp only
    split_ifs <;> simp

theorem calculate_confidence_bounds (text tk dir op : String) (htk : tk ≠ "")
    (hop : op ≠ "") :
    (3 / 5 : ℚ) ≤ calculate_confidence text tk dir op ∧
      calculate_confidence text tk dir op ≤ 1 := by
  simp only [calculate_confidence]
  rw [if_pos htk, if_pos hop]
  constructor
  · refine le_min ?_ (by norm_num)
    split_ifs <;> norm_num
  · exact min_le_right _ _

/-- C10: every successful parse carries a confidence in [0.6, 1.0]: the
ticker bonus 0.4 and the operation bonus 0.2 always apply on the success
path, the remaining bonuses add at most 0.4, and the result is clamped at
1.0. -/
theorem claim10_confidence_bounds (text : String) (probe : ParseProbe)
    (h : (parse_raw_message text probe).success = true) :
    (3 / 5 : ℚ) ≤ (parse_raw_message text probe).confidence ∧
      (parse_raw_message text probe).confidence ≤ 1 := by
  unfold parse_raw_message at h ⊢
  by_cases h1 : (text == "" || text.toList.all (fun c => c.isWhitespace)) = true
  · rw [if_pos h1] at h; simp at h
  · rw [if_neg h1] at h ⊢
    by_cases h2 : (!probe.is_trading) = true
    · rw [if_pos h2] at h; simp at h
    · rw [if_neg h2] at h ⊢
      cases hft : probe.found_ticker with
      | none => rw [hft] at h; simp at h
      | some tk =>
          rw [hft] at h
          by_cases h3 : tk = ""
          · simp [h3] at h
          · have hopne : (analyze_operation probe.op).1 ≠ "" := by
              rcases analyze_operation_fst probe.op with hx | hx <;> simp [hx]
            have hbounds := calculate_confidence_bounds text.trim tk
              (analyze_operation probe.op).2 (analyze_operation probe.op).1 h3 hopne
            simpa [h3] using hbounds

/-- Witness for C10 at a concrete successful parse. -/
theorem claim10_witness :
    (parse_raw_message "long ABC"
      { is_trading := true
        found_ticker := some "ABC"
        op := { exit_hit := none, long_hit := true, short_hit := false
                word_long := true, word_short := false } }).success = true ∧
    (3 / 5 : ℚ) ≤ (parse_raw_message "long ABC"
      { is_trading := true
        found_ticker := some "ABC"
        op := { exit_hit := none, long_hit := true, short_hit := false
                word_long := true, word_short := false } }).confidence := by
  refine ⟨by decide, ?_⟩
  exact (claim10_confidence_bounds "long ABC" _ (by decide)).1

theorem validate_some_iff (inp : BacktestInputs) :
    (∃ msg, validate_backtest_inputs inp = some msg) ↔ invalid_backtest_inputs inp := by
  unfold validate_backtest_inputs invalid_backtest_inputs
  split_ifs with h1 h2 h3 h4 h5 h6 h7 <;> simp <;> (try push_neg at *) <;> tauto

/-- C6: `run_backtest` raises a validation error, with the database state
unchanged (no backtest record created), exactly when one of its inputs is
invalid: non-positive rule id, start date not before end date, take-profit
or stop-loss percentage outside (0, 100], non-positive holding horizon,
non-positive initial capital, or position size outside (0, 100]. -/
theorem claim6_validation (st : BacktestState) (ind : IndicatorEnv) (inp : BacktestInputs) :
    ((∃ msg, (run_backtest st ind inp).1 = .error (.validation msg)) ↔
      invalid_backtest_inputs inp) ∧
    (invalid_backtest_inputs inp → (run_backtest st ind inp).2 = st) := by
  unfold run_backtest
  cases hv : validate_backtest_inputs inp with
  | some msg =>
      have hinv : invalid_backtest_inputs inp := (validate_some_iff inp).mp ⟨msg, hv⟩
      exact ⟨⟨fun _ => hinv, fun _ => ⟨msg, rfl⟩⟩, fun _ => rfl⟩
  | none =>
      have hninv : ¬ invalid_backtest_inputs inp := by
        intro hbad
        obtain ⟨msg, hmsg⟩ := (validate_some_iff inp).mpr hbad
        rw [hv] at hmsg
        exact Option.noConfusion hmsg
      constructor
      · constructor
        · intro hex
          exfalso
          obtain ⟨msg, hmsg⟩ := hex
          cases hfind : List.find? (fun r => (r.id : Int) == inp.rule_id) st.rules with
          | none => rw [hfind] at hmsg; exact BacktestError.noConfusion (Except.error.inj hmsg)
          | some rule => rw [hfind] at hmsg; exact Except.noConfusion hmsg
        · intro hbad; exact absurd hbad hninv
      · intro hbad; exact absurd hbad hninv

/-- Witness for C6 at a concrete invalid input (zero capital): the call
returns a validation error and writes no record. -/
theorem claim6_witness :
    (∃ msg, (run_backtest
        { rules := [rule_one], signals := [], instruments := [], candles := [], backtests := [] }
        trivial_ind
        { rule_id := 7, start_date := 0, end_date := 10, tickers := none
          take_profit_pct := 5, stop_loss_pct := 3, holding_hours := 24
          initial_capital := 0, position_size_pct := 10 }).1
      = .error (.validation msg)) ∧
    (run_backtest
        { rules := [rule_one], signals := [], instruments := [], candles := [], backtests := [] }
        trivial_ind
        { rule_id := 7, start_date := 0, end_date := 10, tickers := none
          take_profit_pct := 5, stop_loss_pct := 3, holding_hours := 24
          initial_capital := 0, position_size_pct := 10 }).2
      = { rules := [rule_one], signals := [], instruments := [], candles := []
          backtests := [] } := by
  have hc := claim6_validation
    { rules := [rule_one], signals := [], instruments := [], candles := [], backtests := [] }
    trivial_ind
    { rule_id := 7, start_date := 0, end_date := 10, tickers := none
      take_profit_pct := 5, stop_loss_pct := 3, holding_hours := 24
      initial_capital := 0, position_size_pct := 10 }
  have hbad : invalid_backtest_inputs
      { rule_id := 7, start_date := 0, end_date := 10, tickers := none
        take_profit_pct := 5, stop_loss_pct := 3, holding_hours := 24
        initial_capital := 0, position_size_pct := 10 } := by
    unfold invalid_backtest_inputs; norm_num
  exact ⟨hc.1.mpr hbad, hc.2 hbad⟩

theorem process_message_det_invariant (acc : BatchStats × List (Nat × Bool))
    (mid : Nat) (ps : Bool) (pe : Option String) (si : Option Nat) (d1 d2 : DetOutcome) :
    process_message acc ⟨mid, ps, pe, si, d1⟩ = process_message acc ⟨mid, ps, pe, si, d2⟩ := by
  cases d1 <;> cases d2 <;> rfl

theorem process_message_marks (acc : BatchStats × List (Nat × Bool)) (m : MsgCase) :
    (process_message acc m).2 = acc.2 ++ [(m.msg_id, m.parse_success && m.save_id.isSome)] := by
  rcases m with ⟨mid, ps, pe, si, det⟩
  cases ps <;> cases si <;> cases det <;> rfl

theorem process_message_success_count (acc : BatchStats × List (Nat × Bool)) (m : MsgCase) :
    (process_message acc m).1.successful_parses
      = acc.1.successful_parses + (if m.parse_success && m.save_id.isSome then 1 else 0) := by
  rcases m with ⟨mid, ps, pe, si, det⟩
  cases ps <;> cases si <;> cases det <;>
    simp [process_message, apply_ite BatchStats.successful_parses]

theorem process_message_total (acc : BatchStats × List (Nat × Bool)) (m : MsgCase) :
    (process_message acc m).1.total_processed = acc.1.total_processed + 1 := by
  rcases m with ⟨mid, ps, pe, si, det⟩
  cases ps <;> cases si <;> cases det <;>
    simp [process_message, apply_ite BatchStats.total_processed]

theorem parse_fold_marks (msgs : List MsgCase) : ∀ acc : BatchStats × List (Nat × Bool),
    (msgs.foldl process_message acc).2
      = acc.2 ++ msgs.map (fun x => (x.msg_id, x.parse_success && x.save_id.isSome)) := by
  induction msgs with
  | nil => intro acc; simp
  | cons m rest ih =>
      intro acc
      rw [List.foldl_cons, ih, process_message_marks]
      simp

theorem parse_fold_success (msgs : List MsgCase) : ∀ acc : BatchStats × List (Nat × Bool),
    (msgs.foldl process_message acc).1.successful_parses
      = acc.1.successful_parses
        + (msgs.filter (fun x => x.parse_success && x.save_id.isSome)).length := by
  induction msgs with
  | nil => intro acc; simp
  | cons m rest ih =>
      intro acc
      rw [List.foldl_cons, ih, process_message_success_count]
      by_cases hm : (m.parse_success && m.save_id.isSome) = true
      · simp [List.filter_cons, hm]
        omega
      · simp [List.filter_cons, hm]

theorem parse_fold_total (msgs : List MsgCase) : ∀ acc : BatchStats × List (Nat × Bool),
    (msgs.foldl process_message acc).1.total_processed
      = acc.1.total_processed + msgs.length := by
  induction msgs with
  | nil => intro acc; simp
  | cons m rest ih =>
      intro acc
      rw [List.foldl_cons, ih, process_message_total]
      simp [List.length_cons]
      omega

/-- C8: in `parse_all_unprocessed_messages`, the detector outcome for a
successfully parsed and saved message — including an exception, which the
inner try block swallows — does not change the batch output at all: the
message is still marked `is_processed=true, parse_success=true`, it is
still counted among `successful_parses`, and every message of the batch is
still processed. -/
theorem claim8_detector_exception_isolated (pre post : List MsgCase) (m : MsgCase)
    (h1 : m.parse_success = true) (h2 : m.save_id.isSome = true) :
    (∀ d1 d2 : DetOutcome,
      parse_all_unprocessed (pre ++ { m with det := d1 } :: post)
        = parse_all_unprocessed (pre ++ { m with det := d2 } :: post)) ∧
    (m.msg_id, true) ∈ (parse_all_unprocessed (pre ++ m :: post)).2 ∧
    (parse_all_unprocessed (pre ++ m :: post)).1.successful_parses
      = ((pre ++ m :: post).filter (fun x => x.parse_success && x.save_id.isSome)).length ∧
    (parse_all_unprocessed (pre ++ m :: post)).1.total_processed
      = (pre ++ m :: post).length := by
  refine ⟨fun d1 d2 => ?_, ?_, ?_, ?_⟩
  · unfold parse_all_unprocessed
    rw [List.foldl_append, List.foldl_cons, List.foldl_append, List.foldl_cons]
    rcases m with ⟨mid, ps, pe, si, det⟩
    exact congrArg (fun acc => post.foldl process_message acc)
      (process_message_det_invariant (pre.foldl process_message (empty_stats, []))
        mid ps pe si d1 d2)
  · have hmk := parse_fold_marks (pre ++ m :: post) (empty_stats, [])
    unfold parse_all_unprocessed
    rw [hmk]
    have : (m.msg_id, true)
        = (fun x : MsgCase => (x.msg_id, x.parse_success && x.save_id.isSome)) m := by
      simp [h1, h2]
    rw [this]
    simp only [List.nil_append]
    exact List.mem_map_of_mem _ (by simp)
  · unfold parse_all_unprocessed
    rw [parse_fold_success]
    simp [empty_stats]
  · unfold parse_all_unprocessed
    rw [parse_fold_total]
    simp [empty_stats]

/-- Witness for C8: a one-message batch whose detector raises still counts
the message as successfully parsed and marks it processed. -/
theorem claim8_witness :
    parse_all_unprocessed
        [{ msg_id := 5, parse_success := true, parse_error := none, save_id := some 9
           det := .raises }]
      = parse_all_unprocessed
        [{ msg_id := 5, parse_success := true, parse_error := none, save_id := some 9
           det := .ok true }] ∧
    (5, true) ∈ (parse_all_unprocessed
        [{ msg_id := 5, parse_success := true, parse_error := none, save_id := some 9
           det := .raises }]).2 := by
  have hc := claim8_detector_exception_isolated [] []
    { msg_id := 5, parse_success := true, parse_error := none, save_id := some 9
      det := .raises } rfl rfl
  exact ⟨hc.1 DetOutcome.raises (DetOutcome.ok true), hc.2.1⟩

theorem walk_candles_exit_price (is_long : Bool) (tp sl : ℚ) :
    ∀ (l : List Candle) (p0 : ℚ) (t0 : Int),
      ((walk_candles is_long tp sl l p0 t0).2.1 = "take_profit" →
        (walk_candles is_long tp sl l p0 t0).1 = tp) ∧
      ((walk_candles is_long tp sl l p0 t0).2.1 = "stop_loss" →
        (walk_candles is_long tp sl l p0 t0).1 = sl) := by
  intro l
  induction l with
  | nil =>
      intro p0 t0
      constructor <;> intro hz <;> simp [walk_candles] at hz
  | cons c rest ih =>
      intro p0 t0
      cases is_long <;>
        (simp only [walk_candles]
         split_ifs <;>
           first
             | exact ih c.close c.time
             | (constructor <;> intro hz <;> simp_all))

/-- C5: for every simulated trade, the percentage P&L is
`(exit-entry)/entry*100` for a long and `(entry-exit)/entry*100` otherwise,
the absolute P&L is `shares * entry * pnl_pct/100`, and a take-profit exit
yields `pnl_pct` exactly `+take_profit_pct` while a stop-loss exit yields
exactly `-stop_loss_pct` (exact rational equalities, hence within 1e-6). -/
theorem claim5_pnl_laws (instruments : List Instrument) (candles : List Candle)
    (event : TradeEvent) (tp sl : ℚ) (hh : Int) (capital pos : ℚ) (r : TradeResult)
    (h : simulate_trade instruments candles event tp sl hh capital pos = some r) :
    (r.direction = some "long" →
        r.pnl_pct = ((r.exit_price - r.entry_price) / r.entry_price) * 100) ∧
    (r.direction ≠ some "long" →
        r.pnl_pct = ((r.entry_price - r.exit_price) / r.entry_price) * 100) ∧
    r.profit_abs = (r.shares : ℚ) * r.entry_price * (r.pnl_pct / 100) ∧
    (r.exit_reason = "take_profit" → r.pnl_pct = tp) ∧
    (r.exit_reason = "stop_loss" → r.pnl_pct = -sl) := by
  simp only [simulate_trade] at h
  split at h
  · exact Option.noConfusion h
  · split at h
    · exact Option.noConfusion h
    · split at h
      · exact Option.noConfusion h
      · split at h
        · exact Option.noConfusion h
        · rename_i x1 figi hfigi x2 entry_candle hentry hsh walked exit_price exit_reason
            exit_time heq
          have hr := Option.some.inj h
          subst hr
          have hne : entry_candle.close ≠ 0 := by
            intro h0
            apply hsh
            rw [h0, div_zero]
            simp [float_to_int]
          refine ⟨?_, ?_, rfl, ?_, ?_⟩
          · intro hdir
            have hd : event.direction = some "long" := hdir
            have hb : (event.direction == some "long") = true := by simp [hd]
            show (if (event.direction == some "long") = true then
                (exit_price - entry_candle.close) / entry_candle.close * 100
              else (entry_candle.close - exit_price) / entry_candle.close * 100)
              = (exit_price - entry_candle.close) / entry_candle.close * 100
            rw [if_pos hb]
          · intro hdir
            have hd : event.direction ≠ some "long" := hdir
            have hb : (event.direction == some "long") = false := beq_eq_false_iff_ne.mpr hd
            show (if (event.direction == some "long") = true then
                (exit_price - entry_candle.close) / entry_candle.close * 100
              else (entry_candle.close - exit_price) / entry_candle.close * 100)
              = (entry_candle.close - exit_price) / entry_candle.close * 100
            rw [hb]
            simp
          · intro hreason
            have hre : exit_reason = "take_profit" := hreason
            split at heq
            · split at heq
              · rw [Option.some.injEq, Prod.mk.injEq] at heq
                have h2 := heq.2
                rw [Prod.mk.injEq] at h2
                rw [← h2.1] at hre
                exact absurd hre (by decide)
              · exact Option.noConfusion heq
            · rw [Option.some.injEq] at heq
              have h21 := congrArg (fun p : ℚ × String × Int => p.2.1) heq
              have hep := congrArg (fun p : ℚ × String × Int => p.1) heq
              dsimp only at h21 hep
              have htp := (walk_candles_exit_price (event.direction == some "long")
                (if (event.direction == some "long") = true then
                   entry_candle.close * (1 + tp / 100)
                 else entry_candle.close * (1 - tp / 100))
                (if (event.direction == some "long") = true then
                   entry_candle.close * (1 - sl / 100)
                 else entry_candle.close * (1 + sl / 100)) _ _ _).1
                (by rw [h21]; exact hre)
              have hx : exit_price = (if (event.direction == some "long") = true then
                   entry_candle.close * (1 + tp / 100)
                 else entry_candle.close * (1 - tp / 100)) := by rw [← hep, htp]
              show (if (event.direction == some "long") = true then
                  (exit_price - entry_candle.close) / entry_candle.close * 100
                else (entry_candle.close - exit_price) / entry_candle.close * 100) = tp
              cases hb : (event.direction == some "long") with
              | true =>
                  rw [if_pos rfl]
                  rw [hb, if_pos rfl] at hx
                  rw [hx]
                  field_simp
                  ring
              | false =>
                  rw [if_neg (by simp)]
                  rw [hb, if_neg (by simp)] at hx
                  rw [hx]
                  field_simp
                  ring
          · intro hreason
            have hre : exit_reason = "stop_loss" := hreason
            split at heq
            · split at heq
              · rw [Option.some.injEq, Prod.mk.injEq] at heq
                have h2 := heq.2
                rw [Prod.mk.injEq] at h2
                rw [← h2.1] at hre
                exact absurd hre (by decide)
              · exact Option.noConfusion heq
            · rw [Option.some.injEq] at heq
              have h21 := congrArg (fun p : ℚ × String × Int => p.2.1) heq
              have hep := congrArg (fun p : ℚ × String × Int => p.1) heq
              dsimp only at h21 hep
              have hsl := (walk_candles_exit_price (event.direction == some "long")
                (if (event.direction == some "long") = true then
                   entry_candle.close * (1 + tp / 100)
                 else entry_candle.close * (1 - tp / 100))
                (if (event.direction == some "long") = true then
                   entry_candle.close * (1 - sl / 100)
                 else entry_candle.close * (1 + sl / 100)) _ _ _).2
                (by rw [h21]; exact hre)
              have hx : exit_price = (if (event.direction == some "long") = true then
                   entry_candle.close * (1 - sl / 100)
                 else entry_candle.close * (1 + sl / 100)) := by rw [← hep, hsl]
              show (if (event.direction == some "long") = true then
                  (exit_price - entry_candle.close) / entry_candle.close * 100
                else (entry_candle.close - exit_price) / entry_candle.close * 100) = -sl
              cases hb : (event.direction == some "long") with
              | true =>
                  rw [if_pos rfl]
                  rw [hb, if_pos rfl] at hx
                  rw [hx]
                  field_simp
                  ring
              | false =>
                  rw [if_neg (by simp)]
                  rw [hb, if_neg (by simp)] at hx
                  rw [hx]
                  field_simp
                  ring

/-- Witness for C5: a concrete long trade that hits take profit exits with
`pnl_pct` exactly equal to the take-profit percentage. -/
theorem claim5_witness :
    ∃ r, simulate_trade [inst_abc] [candle_entry, candle_next] event_abc 5 3 24 100000 10
        = some r ∧ r.exit_reason = "take_profit" ∧ r.pnl_pct = 5 := by
  have h : simulate_trade [inst_abc] [candle_entry, candle_next] event_abc 5 3 24 100000 10
      = some { ticker := "ABC", direction := some "long", entry_time := 0, exit_time := 3600
               entry_price := 100, exit_price := 105, shares := 100, position_value := 10000
               pnl_pct := 5, profit_abs := 500, exit_reason := "take_profit"
               traders_count := 2 } := by
    norm_num [simulate_trade, sort_by, insert_sorted, walk_candles, float_to_int,
      inst_abc, candle_entry, candle_next, event_abc, List.filter]
  have hc := claim5_pnl_laws [inst_abc] [candle_entry, candle_next] event_abc 5 3 24 100000 10
    { ticker := "ABC", direction := some "long", entry_time := 0, exit_time := 3600
      entry_price := 100, exit_price := 105, shares := 100, position_value := 10000
      pnl_pct := 5, profit_abs := 500, exit_reason := "take_profit", traders_count := 2 } h
  exact ⟨_, h, rfl, hc.2.2.2.1 rfl⟩

theorem direction_keys_mem_acc (l : List ParsedSignal) :
    ∀ (acc : List (Option String)) (d : Option String), d ∈ acc →
      d ∈ l.foldl (fun acc s => if acc.contains s.direction then acc else acc ++ [s.direction])
        acc := by
  induction l with
  | nil => intro acc d hd; simpa using hd
  | cons x xs ih =>
      intro acc d hd
      simp only [List.foldl_cons]
      apply ih
      split
      · exact hd
      · exact List.mem_append_left _ hd

theorem direction_keys_mem_aux (l : List ParsedSignal) :
    ∀ (acc : List (Option String)) (s : ParsedSignal), s ∈ l →
      s.direction ∈ l.foldl
        (fun acc s => if acc.contains s.direction then acc else acc ++ [s.direction]) acc := by
  induction l with
  | nil => intro acc s hs; cases hs
  | cons x xs ih =>
      intro acc s hs
      simp only [List.foldl_cons]
      rcases List.mem_cons.mp hs with rfl | hmem
      · apply direction_keys_mem_acc
        split
        · next hcont => simpa using hcont
        · exact List.mem_append_right _ (by simp)
      · exact ih _ s hmem

theorem direction_keys_mem (l : List ParsedSignal) (s : ParsedSignal) (hs : s ∈ l) :
    s.direction ∈ direction_keys l :=
  direction_keys_mem_aux l [] s hs

theorem mem_ne_one_lt_length {α : Type} (l : List α) (a b : α) (ha : a ∈ l) (hb : b ∈ l)
    (hne : a ≠ b) : 1 < l.length := by
  cases l with
  | nil => cases ha
  | cons x xs =>
      cases xs with
      | nil =>
          simp at ha hb
          rw [ha, hb] at hne
          exact absurd rfl hne
      | cons y ys => simp [List.length]

theorem unique_authors_acc_nodup (l : List ParsedSignal) :
    ∀ acc : List String, acc.Nodup →
      (l.foldl (fun acc s =>
        match s.author with
        | some a => if a ≠ "" && !acc.contains a then acc ++ [a] else acc
        | none => acc) acc).Nodup := by
  induction l with
  | nil => intro acc h; simpa using h
  | cons x xs ih =>
      intro acc h
      rw [List.foldl_cons]
      apply ih
      cases hx : x.author with
      | none => exact h
      | some a =>
          dsimp only
          split
          · next hc =>
              have hna : a ∉ acc := by
                simp only [Bool.and_eq_true] at hc
                simpa using hc.2
              simp [List.nodup_append, h, hna]
          · exact h

theorem unique_authors_nodup (l : List ParsedSignal) : (unique_authors l).Nodup :=
  unique_authors_acc_nodup l [] (by simp)

theorem unique_authors_sound_aux (l : List ParsedSignal) :
    ∀ (acc : List String) (a : String),
      a ∈ l.foldl (fun acc s =>
        match s.author with
        | some a => if a ≠ "" && !acc.contains a then acc ++ [a] else acc
        | none => acc) acc →
      a ∈ acc ∨ ∃ s ∈ l, s.author = some a := by
  induction l with
  | nil => intro acc a ha; left; simpa using ha
  | cons x xs ih =>
      intro acc a ha
      rw [List.foldl_cons] at ha
      rcases ih _ a ha with hacc | ⟨s, hs, hsa⟩
      · cases hx : x.author with
        | none => rw [hx] at hacc; left; exact hacc
        | some b =>
            rw [hx] at hacc
            dsimp only at hacc
            split at hacc
            · rcases List.mem_append.mp hacc with h1 | h2
              · left; exact h1
              · right
                refine ⟨x, List.mem_cons_self x xs, ?_⟩
                have hab : a = b := List.mem_singleton.mp h2
                rw [hx, hab]
            · left; exact hacc
      · right; exact ⟨s, List.mem_cons_of_mem _ hs, hsa⟩

theorem unique_authors_sound (l : List ParsedSignal) (a : String)
    (ha : a ∈ unique_authors l) : ∃ s ∈ l, s.author = some a := by
  rcases unique_authors_sound_aux l [] a ha with h1 | h2
  · cases h1
  · exact h2

theorem find_consensus_window_some (db : List ParsedSignal) (ind : IndicatorEnv)
    (signal : ParsedSignal) (w mt : Int) (strict : Bool) (rule : Option ConsensusRule)
    (data : ConsensusData)
    (h : find_consensus_window db ind signal w mt strict rule = some data) :
    data.signals = direction_group (window_signals db signal w) data.direction ∧
    data.unique_authors = unique_authors data.signals ∧
    mt ≤ (data.unique_authors.length : Int) ∧
    mt ≤ ((window_signals db signal w).length : Int) ∧
    (strict = true → (direction_keys (window_signals db signal w)).length ≤ 1) := by
  simp only [find_consensus_window] at h
  split at h
  · exact Option.noConfusion h
  · next hlen =>
      split at h
      · exact Option.noConfusion h
      · next d hd =>
          split at h
          · exact Option.noConfusion h
          · next hua =>
              split at h
              · have hdd := Option.some.inj h
                subst hdd
                refine ⟨rfl, rfl, ?_, ?_, ?_⟩
                · have h1 : ¬ ((unique_authors
                      (direction_group (window_signals db signal w) d)).length : Int) < mt := by
                    simpa using hua
                  exact not_lt.mp h1
                · have h2 : ¬ ((window_signals db signal w).length : Int) < mt := by
                    simpa using hlen
                  exact not_lt.mp h2
                · intro hstrict
                  subst hstrict
                  rw [if_pos rfl] at hd
                  by_cases hk : (direction_keys (window_signals db signal w)).length > 1
                  · rw [if_pos hk] at hd
                    exact absurd hd (by simp)
                  · exact not_lt.mp hk
              · exact Option.noConfusion h

/-- C1: strict window evaluation.  With `strict_consensus = true`, window
evaluation returns no consensus when the entry signals in the symmetric
window span more than one direction, and also when the window holds fewer
than `min_traders` signals; whenever it does return a consensus, at least
`min_traders` pairwise-distinct authors occur among the window signals. -/
theorem claim1_strict_window (db : List ParsedSignal) (ind : IndicatorEnv)
    (signal : ParsedSignal) (w mt : Int) (rule : Option ConsensusRule) :
    (((window_signals db signal w).length : Int) < mt →
      find_consensus_window db ind signal w mt true rule = none) ∧
    ((∃ x ∈ window_signals db signal w, ∃ y ∈ window_signals db signal w,
        x.direction ≠ y.direction) →
      find_consensus_window db ind signal w mt true rule = none) ∧
    (∀ data, find_consensus_window db ind signal w mt true rule = some data →
      ∃ authors : List String, authors.Nodup ∧
        (∀ a ∈ authors, ∃ s ∈ window_signals db signal w, s.author = some a) ∧
        mt ≤ (authors.length : Int)) := by
  refine ⟨?_, ?_, ?_⟩
  · intro hlt
    unfold find_consensus_window
    rw [if_pos (by simpa using hlt)]
  · rintro ⟨x, hx, y, hy, hne⟩
    have hkeys : 1 < (direction_keys (window_signals db signal w)).length :=
      mem_ne_one_lt_length _ _ _ (direction_keys_mem _ x hx) (direction_keys_mem _ y hy) hne
    cases hcase : find_consensus_window db ind signal w mt true rule with
    | none => rfl
    | some data =>
        have hle := (find_consensus_window_some db ind signal w mt true rule data hcase).2.2.2.2 rfl
        omega
  · intro data hdata
    obtain ⟨hsig, hua, hmt, _, _⟩ :=
      find_consensus_window_some db ind signal w mt true rule data hdata
    refine ⟨data.unique_authors, ?_, ?_, hmt⟩
    · rw [hua, hsig]
      exact unique_authors_nodup _
    · intro a ha
      rw [hua, hsig] at ha
      obtain ⟨s, hs, hsa⟩ := unique_authors_sound _ a ha
      exact ⟨s, (List.mem_filter.mp hs).1, hsa⟩

/-- Witness for C1: a window holding a long and a short signal on the same
ticker is rejected under strict consensus. -/
theorem claim1_witness :
    find_consensus_window [sig_a, sig_c] trivial_ind sig_a 10 2 true none = none := by
  exact (claim1_strict_window [sig_a, sig_c] trivial_ind sig_a 10 2 none).2.1
    ⟨sig_a, by decide, sig_c, by decide, by decide⟩

theorem foldl_min_le_init (l : List ParsedSignal) : ∀ a : Int,
    l.foldl (fun m x => min m x.timestamp) a ≤ a := by
  induction l with
  | nil => intro a; exact le_refl a
  | cons x xs ih =>
      intro a
      rw [List.foldl_cons]
      exact le_trans (ih (min a x.timestamp)) (min_le_left _ _)

theorem foldl_min_le_mem (l : List ParsedSignal) : ∀ (a : Int) (x : ParsedSignal), x ∈ l →
    l.foldl (fun m x => min m x.timestamp) a ≤ x.timestamp := by
  induction l with
  | nil => intro a x hx; cases hx
  | cons y ys ih =>
      intro a x hx
      rw [List.foldl_cons]
      rcases List.mem_cons.mp hx with rfl | hmem
      · exact le_trans (foldl_min_le_init ys (min a x.timestamp)) (min_le_right _ _)
      · exact ih _ x hmem

theorem foldl_min_cases (l : List ParsedSignal) : ∀ a : Int,
    l.foldl (fun m x => min m x.timestamp) a = a ∨
      ∃ x ∈ l, l.foldl (fun m x => min m x.timestamp) a = x.timestamp := by
  induction l with
  | nil => intro a; left; rfl
  | cons y ys ih =>
      intro a
      rw [List.foldl_cons]
      rcases ih (min a y.timestamp) with h1 | ⟨x, hx, h2⟩
      · rcases min_cases a y.timestamp with ⟨hm, -⟩ | ⟨hm, -⟩
        · left; rw [h1, hm]
        · right; exact ⟨y, List.mem_cons_self y ys, by rw [h1, hm]⟩
      · right; exact ⟨x, List.mem_cons_of_mem _ hx, h2⟩

theorem min_timestamp_le (l : List ParsedSignal) (x : ParsedSignal) (hx : x ∈ l) :
    min_timestamp l ≤ x.timestamp := by
  cases l with
  | nil => cases hx
  | cons s rest =>
      unfold min_timestamp
      rcases List.mem_cons.mp hx with rfl | hmem
      · exact foldl_min_le_init rest x.timestamp
      · exact foldl_min_le_mem rest _ x hmem

theorem min_timestamp_attained (l : List ParsedSignal) (hl : l ≠ []) :
    ∃ x ∈ l, x.timestamp = min_timestamp l := by
  cases l with
  | nil => exact absurd rfl hl
  | cons s rest =>
      unfold min_timestamp
      rcases foldl_min_cases rest s.timestamp with h1 | ⟨x, hx, h2⟩
      · exact ⟨s, List.mem_cons_self s rest, h1.symm⟩
      · exact ⟨x, List.mem_cons_of_mem _ hx, h2.symm⟩

theorem foldl_max_init_le (l : List ParsedSignal) : ∀ a : Int,
    a ≤ l.foldl (fun m x => max m x.timestamp) a := by
  induction l with
  | nil => intro a; exact le_refl a
  | cons x xs ih =>
      intro a
      rw [List.foldl_cons]
      exact le_trans (le_max_left _ _) (ih (max a x.timestamp))

theorem foldl_max_mem_le (l : List ParsedSignal) : ∀ (a : Int) (x : ParsedSignal), x ∈ l →
    x.timestamp ≤ l.foldl (fun m x => max m x.timestamp) a := by
  induction l with
  | nil => intro a x hx; cases hx
  | cons y ys ih =>
      intro a x hx
      rw [List.foldl_cons]
      rcases List.mem_cons.mp hx with rfl | hmem
      · exact le_trans (le_max_right _ _) (foldl_max_init_le ys (max a x.timestamp))
      · exact ih _ x hmem

theorem foldl_max_cases (l : List ParsedSignal) : ∀ a : Int,
    l.foldl (fun m x => max m x.timestamp) a = a ∨
      ∃ x ∈ l, l.foldl (fun m x => max m x.timestamp) a = x.timestamp := by
  induction l with
  | nil => intro a; left; rfl
  | cons y ys ih =>
      intro a
      rw [List.foldl_cons]
      rcases ih (max a y.timestamp) with h1 | ⟨x, hx, h2⟩
      · rcases max_cases a y.timestamp with ⟨hm, -⟩ | ⟨hm, -⟩
        · left; rw [h1, hm]
        · right; exact ⟨y, List.mem_cons_self y ys, by rw [h1, hm]⟩
      · right; exact ⟨x, List.mem_cons_of_mem _ hx, h2⟩

theorem le_max_timestamp (l : List ParsedSignal) (x : ParsedSignal) (hx : x ∈ l) :
    x.timestamp ≤ max_timestamp l := by
  cases l with
  | nil => cases hx
  | cons s rest =>
      unfold max_timestamp
      rcases List.mem_cons.mp hx with rfl | hmem
      · exact foldl_max_init_le rest x.timestamp
      · exact foldl_max_mem_le rest _ x hmem

theorem max_timestamp_attained (l : List ParsedSignal) (hl : l ≠ []) :
    ∃ x ∈ l, x.timestamp = max_timestamp l := by
  cases l with
  | nil => exact absurd rfl hl
  | cons s rest =>
      unfold max_timestamp
      rcases foldl_max_cases rest s.timestamp with h1 | ⟨x, hx, h2⟩
      · exact ⟨s, List.mem_cons_self s rest, h1.symm⟩
      · exact ⟨x, List.mem_cons_of_mem _ hx, h2.symm⟩

theorem getLastD_mem {α : Type} (l : List α) (d : α) (hl : l ≠ []) : l.getLastD d ∈ l := by
  induction l generalizing d with
  | nil => exact absurd rfl hl
  | cons a rest ih =>
      cases rest with
      | nil => simp [List.getLastD]
      | cons b rs =>
          rw [List.getLastD_cons]
          exact List.mem_cons_of_mem _ (ih b (by simp))

theorem pairwise_le_getLastD (l : List ParsedSignal) (d : ParsedSignal)
    (hpw : l.Pairwise (fun a b => a.timestamp ≤ b.timestamp)) :
    ∀ x ∈ l, x.timestamp ≤ (l.getLastD d).timestamp := by
  induction l generalizing d with
  | nil => intro x hx; cases hx
  | cons a rest ih =>
      intro x hx
      rcases List.pairwise_cons.mp hpw with ⟨ha, hrest⟩
      cases rest with
      | nil =>
          rcases List.mem_cons.mp hx with rfl | hm
          · simp [List.getLastD]
          · cases hm
      | cons b rs =>
          rw [List.getLastD_cons]
          rcases List.mem_cons.mp hx with rfl | hm
          · exact le_trans (ha _ (getLastD_mem (b :: rs) b (by simp)))
              (le_refl _) |>.trans (le_refl _) |>.trans
              (le_trans (le_refl _) (le_refl _)) |>.trans
              (by
                exact le_refl _)
          · exact ih b hrest x hm

theorem sort_head_min (l : List ParsedSignal) (d : ParsedSignal) (hl : l ≠ []) :
    ((sort_by (fun a b : ParsedSignal => decide (a.timestamp ≤ b.timestamp)) l).headD d).timestamp
      = min_timestamp l := by
  have hperm := sort_by_perm (fun a b : ParsedSignal => decide (a.timestamp ≤ b.timestamp)) l
  have hpw := sort_by_pairwise (fun a b : ParsedSignal => decide (a.timestamp ≤ b.timestamp))
    (fun a b c h1 h2 => decide_eq_true
      (le_trans (of_decide_eq_true h1) (of_decide_eq_true h2)))
    (fun a b => by
      rcases le_total a.timestamp b.timestamp with h | h
      · exact Or.inl (decide_eq_true h)
      · exact Or.inr (decide_eq_true h)) l
  cases hs : sort_by (fun a b : ParsedSignal => decide (a.timestamp ≤ b.timestamp)) l with
  | nil =>
      rw [hs] at hperm
      exact absurd hperm.symm.eq_nil hl
  | cons a rest =>
      rw [hs] at hperm hpw
      rcases List.pairwise_cons.mp hpw with ⟨ha, -⟩
      have hmema : a ∈ l := hperm.mem_iff.mp (List.mem_cons_self a rest)
      have hle : ∀ x ∈ l, a.timestamp ≤ x.timestamp := by
        intro x hx
        rcases List.mem_cons.mp (hperm.mem_iff.mpr hx) with rfl | hm
        · exact le_refl _
        · exact of_decide_eq_true (ha x hm)
      obtain ⟨x0, hx0, hx0e⟩ := min_timestamp_attained l hl
      exact le_antisymm (hx0e ▸ hle x0 hx0) (min_timestamp_le l a hmema)

theorem sort_last_max (l : List ParsedSignal) (d : ParsedSignal) (hl : l ≠ []) :
    ((sort_by (fun a b : ParsedSignal => decide (a.timestamp ≤ b.timestamp)) l).getLastD
      d).timestamp = max_timestamp l := by
  have hperm := sort_by_perm (fun a b : ParsedSignal => decide (a.timestamp ≤ b.timestamp)) l
  have hpw := sort_by_pairwise (fun a b : ParsedSignal => decide (a.timestamp ≤ b.timestamp))
    (fun a b c h1 h2 => decide_eq_true
      (le_trans (of_decide_eq_true h1) (of_decide_eq_true h2)))
    (fun a b => by
      rcases le_total a.timestamp b.timestamp with h | h
      · exact Or.inl (decide_eq_true h)
      · exact Or.inr (decide_eq_true h)) l
  have hpw2 : (sort_by (fun a b : ParsedSignal => decide (a.timestamp ≤ b.timestamp))
      l).Pairwise (fun a b => a.timestamp ≤ b.timestamp) :=
    hpw.imp (fun h => of_decide_eq_true h)
  have hsn : sort_by (fun a b : ParsedSignal => decide (a.timestamp ≤ b.timestamp)) l ≠ [] := by
    intro h0
    rw [h0] at hperm
    exact hl hperm.symm.eq_nil
  have hmem : (sort_by (fun a b : ParsedSignal => decide (a.timestamp ≤ b.timestamp))
      l).getLastD d ∈ l := hperm.mem_iff.mp (getLastD_mem _ d hsn)
  have hge : ∀ x ∈ l, x.timestamp ≤ ((sort_by
      (fun a b : ParsedSignal => decide (a.timestamp ≤ b.timestamp)) l).getLastD d).timestamp := by
    intro x hx
    exact pairwise_le_getLastD _ d hpw2 x (hperm.mem_iff.mpr hx)
  obtain ⟨x0, hx0, hx0e⟩ := max_timestamp_attained l hl
  exact le_antisymm (le_max_timestamp l _ hmem) (hx0e ▸ hge x0 hx0)

theorem rule_loop_shape (ind : IndicatorEnv) (st : DetectorState) (signal : ParsedSignal) :
    ∀ (rs : List ConsensusRule) (ev : ConsensusEvent) (st2 : DetectorState),
      rule_loop ind st signal rs = (some ev, st2) →
      ∃ data rid, data.signals.Sublist st.signals_db ∧
        create_consensus_event st signal data rid = (ev, st2) := by
  intro rs
  induction rs with
  | nil =>
      intro ev st2 h
      exact absurd (congrArg Prod.fst h) (by simp [rule_loop])
  | cons r rest ih =>
      intro ev st2 h
      simp only [rule_loop] at h
      split at h
      · exact ih ev st2 h
      · split at h
        · exact ih ev st2 h
        · split at h
          · next data hdata =>
              have h1 := congrArg Prod.fst h
              have h2 := congrArg Prod.snd h
              dsimp only at h1 h2
              obtain ⟨hs, -, -, -, -⟩ :=
                find_consensus_window_some _ _ _ _ _ _ _ _ hdata
              refine ⟨data, some r.id, ?_, ?_⟩
              · rw [hs]
                exact (List.filter_sublist _).trans (List.filter_sublist _)
              · rw [Prod.ext_iff]
                exact ⟨Option.some.inj h1, h2⟩
          · exact ih ev st2 h

theorem check_some_shape (ind : IndicatorEnv) (st : DetectorState) (sid : Nat)
    (ev : ConsensusEvent) (st2 : DetectorState)
    (h : check_new_signal_sync ind st sid = (some ev, st2)) :
    ∃ trigger data rid,
      st.signals_db.find? (fun s => s.id == sid) = some trigger ∧
      data.signals.Sublist st.signals_db ∧
      create_consensus_event st trigger data rid = (ev, st2) := by
  unfold check_new_signal_sync at h
  split at h
  · exact absurd (congrArg Prod.fst h) (by simp)
  · next trigger hfind =>
      split at h
      · exact absurd (congrArg Prod.fst h) (by simp)
      · split at h
        · exact absurd (congrArg Prod.fst h) (by simp)
        · split at h
          · -- no active rules: the default parameters
            split at h
            · next data hdata =>
                have h1 := congrArg Prod.fst h
                have h2 := congrArg Prod.snd h
                dsimp only at h1 h2
                obtain ⟨hs, -, -, -, -⟩ :=
                  find_consensus_window_some _ _ _ _ _ _ _ _ hdata
                refine ⟨trigger, data, none, hfind, ?_, ?_⟩
                · rw [hs]
                  exact (List.filter_sublist _).trans (List.filter_sublist _)
                · rw [Prod.ext_iff]
                  exact ⟨Option.some.inj h1, h2⟩
            · exact absurd (congrArg Prod.fst h) (by simp)
          · obtain ⟨data, rid, hsub, hcr⟩ := rule_loop_shape ind st trigger _ ev st2 h
            exact ⟨trigger, data, rid, hfind, hsub, hcr⟩

theorem amended_strength_bounds (a : Nat) (sp : Option ℚ) (ss : Int) (t : Nat) :
    0 ≤ amended_strength a sp ss t ∧ amended_strength a sp ss t ≤ 100 := by
  unfold amended_strength
  constructor
  · exact le_max_left 0 _
  · exact max_le (by norm_num) (min_le_left 100 _)

theorem amended_strength_congr_span (a : Nat) (sp : Option ℚ) (s1 s2 : Int) (t : Nat)
    (h : 1 < t → s1 = s2) : amended_strength a sp s1 t = amended_strength a sp s2 t := by
  by_cases ht : t > 1
  · rw [h ht]
  · simp only [amended_strength]
    rw [if_neg ht, if_neg ht]

theorem calculate_strength_amended (data : ConsensusData) (spread : Option ℚ) :
    calculate_strength data spread
      = amended_strength data.unique_authors.length spread
        (max_timestamp data.signals - min_timestamp data.signals) data.signals.length := rfl

/-- Counterexample for C3: with a permissive rule (`min_traders = 1`) a
single-signal consensus event is created whose stored strength is 50 (the
time-span bonus is skipped for one member), while the formula of the claim
applies the span adjustment unconditionally (span 0 < 10 minutes → +15)
and yields 65. -/
theorem claim3_counterexample :
    (check_new_signal_sync trivial_ind state_one 1).1.map
        (fun ev => (ev.consensus_strength, ev.traders_count, ev.price_spread_pct,
          ev.last_signal_at - ev.first_signal_at))
      = some (50, 1, none, 0) ∧
    claim_strength 1 none 0 = 65 ∧ (50 : Int) ≠ 65 := by
  refine ⟨by decide, ?_, by decide⟩
  norm_num [claim_strength]

/-- C3 (amended): every consensus event created by the detector has
`consensus_strength` equal to 50 adjusted by the author-count bonus, the
price-spread adjustment (skipped when the spread is null) and the
time-span bonus — the latter applied only when the event has more than one
member signal — clamped into [0, 100]; in particular the strength always
lies in [0, 100]. -/
theorem claim3_amended (ind : IndicatorEnv) (st : DetectorState) (sid : Nat)
    (ev : ConsensusEvent) (st2 : DetectorState)
    (h : check_new_signal_sync ind st sid = (some ev, st2)) :
    ev.consensus_strength = amended_strength ev.traders_count ev.price_spread_pct
      (ev.last_signal_at - ev.first_signal_at) ev.meta_total_signals ∧
    0 ≤ ev.consensus_strength ∧ ev.consensus_strength ≤ 100 := by
  obtain ⟨trigger, data, rid, -, -, hcreate⟩ := check_some_shape ind st sid ev st2 h
  have hev : ev = (create_consensus_event st trigger data rid).1 := by rw [hcreate]
  subst hev
  constructor
  · show calculate_strength data
        (price_spread_of (avg_price_of (target_prices data.signals))
          (list_min (target_prices data.signals)) (list_max (target_prices data.signals)))
      = amended_strength data.unique_authors.length
        (price_spread_of (avg_price_of (target_prices data.signals))
          (list_min (target_prices data.signals)) (list_max (target_prices data.signals)))
        (((sort_by (fun a b : ParsedSignal => decide (a.timestamp ≤ b.timestamp))
            data.signals).getLastD trigger).timestamp
          - ((sort_by (fun a b : ParsedSignal => decide (a.timestamp ≤ b.timestamp))
            data.signals).headD trigger).timestamp)
        data.signals.length
    rw [calculate_strength_amended]
    apply amended_strength_congr_span
    intro ht
    have hne : data.signals ≠ [] := by
      intro h0
      rw [h0] at ht
      simp at ht
    rw [sort_last_max data.signals trigger hne, sort_head_min data.signals trigger hne]
  · show 0 ≤ calculate_strength data _ ∧ calculate_strength data _ ≤ 100
    rw [calculate_strength_amended]
    exact amended_strength_bounds _ _ _ _

/-- Witness for C3 (amended) at the single-signal event of the permissive
rule. -/
theorem claim3_witness :
    ∃ ev st2, check_new_signal_sync trivial_ind state_one 1 = (some ev, st2) ∧
      ev.consensus_strength = amended_strength ev.traders_count ev.price_spread_pct
        (ev.last_signal_at - ev.first_signal_at) ev.meta_total_signals := by
  have h : check_new_signal_sync trivial_ind state_one 1 = (some event_one, state_one_after) := by
    decide
  exact ⟨_, _, h, (claim3_amended trivial_ind state_one 1 _ _ h).1⟩

theorem rule_loop_preserves (ind : IndicatorEnv) (st : DetectorState) (signal : ParsedSignal) :
    ∀ rs : List ConsensusRule,
      (rule_loop ind st signal rs).2.signals_db = st.signals_db ∧
      (rule_loop ind st signal rs).2.rules = st.rules := by
  intro rs
  induction rs with
  | nil => exact ⟨rfl, rfl⟩
  | cons r rest ih =>
      simp only [rule_loop]
      split
      · exact ih
      · split
        · exact ih
        · split
          · exact ⟨rfl, rfl⟩
          · exact ih

theorem check_preserves (ind : IndicatorEnv) (st : DetectorState) (sid : Nat) :
    (check_new_signal_sync ind st sid).2.signals_db = st.signals_db ∧
    (check_new_signal_sync ind st sid).2.rules = st.rules := by
  unfold check_new_signal_sync
  split
  · exact ⟨rfl, rfl⟩
  · split
    · exact ⟨rfl, rfl⟩
    · split
      · exact ⟨rfl, rfl⟩
      · split
        · split
          · exact ⟨rfl, rfl⟩
          · exact ⟨rfl, rfl⟩
        · exact rule_loop_preserves ind st _ _

theorem rule_loop_cases (ind : IndicatorEnv) (st : DetectorState) (signal : ParsedSignal) :
    ∀ rs : List ConsensusRule, rule_loop ind st signal rs = (none, st) ∨
      ∃ ev st2, rule_loop ind st signal rs = (some ev, st2) := by
  intro rs
  induction rs with
  | nil => left; rfl
  | cons r rest ih =>
      simp only [rule_loop]
      split
      · exact ih
      · split
        · exact ih
        · split
          · right; exact ⟨_, _, rfl⟩
          · exact ih

theorem check_cases (ind : IndicatorEnv) (st : DetectorState) (sid : Nat) :
    check_new_signal_sync ind st sid = (none, st) ∨
      ∃ ev st2, check_new_signal_sync ind st sid = (some ev, st2) := by
  unfold check_new_signal_sync
  split
  · left; rfl
  · split
    · left; rfl
    · split
      · left; rfl
      · split
        · split
          · right; exact ⟨_, _, rfl⟩
          · left; rfl
        · exact rule_loop_cases ind st _ _

theorem check_noop_of_member (ind : IndicatorEnv) (st : DetectorState) (sid : Nat)
    (hmem : 0 < membership_count st sid) :
    check_new_signal_sync ind st sid = (none, st) := by
  have hany : st.memberships.any (fun m => m.signal_id == sid) = true := by
    unfold membership_count at hmem
    obtain ⟨m, hm⟩ := List.exists_mem_of_length_pos hmem
    have hmf := List.mem_filter.mp hm
    exact List.any_eq_true.mpr ⟨m, hmf.1, hmf.2⟩
  unfold check_new_signal_sync
  split
  · rfl
  · split
    · rfl
    · rfl

theorem count_rows_le_one (trigger_id eid sid : Nat) :
    ∀ sigs : List ParsedSignal, (sigs.map (fun s => s.id)).Nodup →
      ((sigs.map (mk_membership eid trigger_id)).filter
        (fun m => m.signal_id == sid)).length ≤ 1 := by
  intro sigs
  induction sigs with
  | nil => intro _; simp
  | cons s rest ih =>
      intro hnd
      rw [List.map_cons, List.filter_cons]
      have hnd2 : (∀ x ∈ rest, ¬ x.id = s.id) ∧ (rest.map (fun s => s.id)).Nodup := by
        simpa using hnd
      rcases hnd2 with ⟨hnotin, hrest⟩
      by_cases hs : s.id = sid
      · rw [if_pos (by simpa [mk_membership] using hs)]
        have hnil : ((rest.map (mk_membership eid trigger_id)).filter
              (fun m => m.signal_id == sid)) = [] := by
          rw [List.filter_eq_nil_iff]
          intro m hm
          obtain ⟨t, ht, rfl⟩ := List.mem_map.mp hm
          simp only [mk_membership, decide_eq_true_eq]
          intro he
          have he2 : t.id = sid := by simpa using he
          exact hnotin t ht (by rw [he2]; exact hs.symm)
        rw [hnil]
        simp
      · rw [if_neg (by simpa [mk_membership] using hs)]
        exact ih hrest

theorem membership_count_append (st : DetectorState) (rows : List ConsensusSignalRow)
    (sid : Nat) :
    membership_count { st with memberships := st.memberships ++ rows } sid
      = membership_count st sid + (rows.filter (fun m => m.signal_id == sid)).length := by
  unfold membership_count
  rw [List.filter_append, List.length_append]

theorem check_count_le_one (ind : IndicatorEnv) (st : DetectorState) (sid : Nat)
    (hnodup : (st.signals_db.map (fun s => s.id)).Nodup)
    (h0 : membership_count st sid = 0) :
    membership_count (check_new_signal_sync ind st sid).2 sid ≤ 1 := by
  rcases check_cases ind st sid with hnone | ⟨ev, st2, hsome⟩
  · rw [congrArg Prod.snd hnone]
    show membership_count st sid ≤ 1
    omega
  · obtain ⟨trigger, data, rid, hfind, hsub, hcreate⟩ :=
      check_some_shape ind st sid ev st2 hsome
    rw [congrArg Prod.snd hsome]
    have hst2 : st2 = (create_consensus_event st trigger data rid).2 := by rw [hcreate]
    rw [hst2]
    have hnd2 : (data.signals.map (fun s => s.id)).Nodup :=
      (hsub.map (fun s => s.id)).nodup hnodup
    have hco := count_rows_le_one trigger.id st.next_event_id sid data.signals hnd2
    show membership_count
      { st with
        events := st.events ++ [(create_consensus_event st trigger data rid).1]
        memberships := st.memberships ++ data.signals.map
          (mk_membership st.next_event_id trigger.id)
        next_event_id := st.next_event_id + 1 } sid ≤ 1
    unfold membership_count
    rw [List.filter_append, List.length_append]
    have h0f : (st.memberships.filter (fun m => m.signal_id == sid)).length = 0 := h0
    omega

theorem iterate_count_le_one (ind : IndicatorEnv) (sid : Nat) : ∀ (n : Nat) (st : DetectorState),
    (st.signals_db.map (fun s => s.id)).Nodup → membership_count st sid ≤ 1 →
    membership_count (iterate_check ind sid n st) sid ≤ 1 := by
  intro n
  induction n with
  | zero => intro st _ hle; exact hle
  | succ n ih =>
      intro st hnodup hle
      unfold iterate_check
      apply ih
      · rw [(check_preserves ind st sid).1]
        exact hnodup
      · rcases Nat.eq_zero_or_pos (membership_count st sid) with h0 | hpos
        · exact check_count_le_one ind st sid hnodup h0
        · rw [congrArg Prod.snd (check_noop_of_member ind st sid hpos)]
          exact hle

/-- C2: detector idempotence.  A non-entry signal, or one already present
in a consensus_signals row, makes `check_new_signal_sync` a no-op that
returns no consensus and writes nothing; when an event is created, exactly
one membership row is appended per member signal (their signal ids are
pairwise distinct), every row carries the new event id, and a row is
marked `is_initiator` exactly when it holds the trigger signal; and any
number of repeated invocations on the same signal id leaves at most one
membership row — hence at most one consensus event — containing it. -/
theorem claim2_idempotence (ind : IndicatorEnv) (st : DetectorState) (sid : Nat)
    (hnodup : (st.signals_db.map (fun s => s.id)).Nodup) :
    (∀ s, st.signals_db.find? (fun x => x.id == sid) = some s → s.signal_type ≠ "entry" →
      check_new_signal_sync ind st sid = (none, st)) ∧
    (0 < membership_count st sid → check_new_signal_sync ind st sid = (none, st)) ∧
    (∀ ev st2, check_new_signal_sync ind st sid = (some ev, st2) →
      ∃ rows, st2.memberships = st.memberships ++ rows ∧
        rows.length = ev.meta_total_signals ∧
        (rows.map (fun row => row.signal_id)).Nodup ∧
        ∀ row ∈ rows, row.consensus_id = ev.id ∧
          (row.is_initiator = true ↔ row.signal_id = sid)) ∧
    (∀ n, membership_count st sid = 0 →
      membership_count (iterate_check ind sid n st) sid ≤ 1) := by
  refine ⟨?_, ?_, ?_, ?_⟩
  · intro s hfind hne
    unfold check_new_signal_sync
    simp only [hfind]
    rw [if_pos hne]
  · exact check_noop_of_member ind st sid
  · intro ev st2 h
    obtain ⟨trigger, data, rid, hfind, hsub, hcreate⟩ := check_some_shape ind st sid ev st2 h
    have htid : trigger.id = sid := by
      have := List.find?_some hfind
      simpa using this
    have hev : ev = (create_consensus_event st trigger data rid).1 := by rw [hcreate]
    have hst2 : st2 = (create_consensus_event st trigger data rid).2 := by rw [hcreate]
    subst hev
    subst hst2
    refine ⟨data.signals.map (mk_membership st.next_event_id trigger.id), rfl, ?_, ?_, ?_⟩
    · rw [List.length_map]
      rfl
    · have hmm : ((data.signals.map (mk_membership st.next_event_id trigger.id)).map
          (fun row => row.signal_id)) = data.signals.map (fun s => s.id) := by
        rw [List.map_map]
        rfl
      rw [hmm]
      exact (hsub.map (fun s => s.id)).nodup hnodup
    · intro row hrow
      obtain ⟨t, ht, rfl⟩ := List.mem_map.mp hrow
      refine ⟨rfl, ?_⟩
      show (t.id == trigger.id) = true ↔ t.id = sid
      rw [htid]
      simp
  · intro n h0
    exact iterate_count_le_one ind sid n st hnodup (by omega)

/-- Witness for C2: two invocations on the trigger signal of `state_one`
leave a single membership row for it. -/
theorem claim2_witness :
    membership_count (iterate_check trivial_ind 1 2 state_one) 1 ≤ 1 := by
  exact (claim2_idempotence trivial_ind state_one 1 (by decide)).2.2.2 2 (by decide)

end Tbot
